import Mathlib

/-!
Verification development for the Formata backend processing pipeline.

The Python services under src/backend/app are shallowly embedded here:
tables are lists of named columns over a cell datatype, pandas Series
operations become list operations, and machine floats are modelled by
exact rationals.  Behaviour of third-party library primitives
(pandas to_numeric, to_datetime, str, dtype inference) is modelled by
the pd-prefixed functions below; repository code is translated
branch by branch from the Python sources.
-/

namespace Formata

/-- A cell of a table: the value universe used by the pipeline after
parsing (null, boolean, exact numeric, string, datetime). -/
inductive Cell where
  | null : Cell
  | bool (b : Bool) : Cell
  | num (q : Rat) : Cell
  | str (s : String) : Cell
  | date (d : Int) : Cell
deriving DecidableEq, Repr

def Cell.isNull : Cell → Bool
  | .null => true
  | _ => false

def Cell.isBool : Cell → Bool
  | .bool _ => true
  | _ => false

def Cell.isNum : Cell → Bool
  | .num _ => true
  | _ => false

def Cell.isDate : Cell → Bool
  | .date _ => true
  | _ => false

/-- Model of Python str(x) / pandas astype(str) on a single cell
(NaN stringifies to "nan", booleans capitalized). -/
def cellStr : Cell → String
  | .null => "nan"
  | .bool b => if b then "True" else "False"
  | .num q => if q.den = 1 then toString q.num else toString q
  | .str s => s
  | .date d => toString d

/-- Model of Python str(x) where x may be Python None. -/
def operandStr : Option Cell → String
  | none => "None"
  | some c => cellStr c

/-- Lower-casing, character by character (Python str.lower on the
ASCII range, matching Char.toLower of Lean). -/
def strLower (s : String) : String :=
  String.mk (s.toList.map Char.toLower)

def isWsChar (c : Char) : Bool :=
  c == ' ' || c == '\t' || c == '\n' || c == '\r'

def dropWsLeft : List Char → List Char
  | [] => []
  | c :: r => if isWsChar c then dropWsLeft r else c :: r

/-- Python str.strip: surrounding whitespace removed. -/
def strTrim (s : String) : String :=
  String.mk ((dropWsLeft ((dropWsLeft s.toList.reverse)).reverse))

/-- Python str.startswith. -/
def strStarts (s pre : String) : Bool :=
  pre.toList.isPrefixOf s.toList

/-- Substring test on character lists (model of the Python in operator
on strings). -/
def listHasSub : List Char → List Char → Bool
  | hay, needle =>
    match hay with
    | [] => needle.isEmpty
    | _ :: rest => needle.isPrefixOf hay || listHasSub rest needle

/-- Whether hay contains needle as a substring. -/
def strContains (hay needle : String) : Bool :=
  listHasSub hay.toList needle.toList

/-- Digits of a decimal literal to a natural number; none if empty or
a non-digit occurs. -/
def digsToNat (l : List Char) : Option Nat :=
  if l ≠ [] ∧ l.all Char.isDigit then
    some (l.foldl (fun a c => a * 10 + (c.toNat - 48)) 0)
  else
    none

/-- Model of numeric-string parsing (Python float / pandas
to_numeric on a string): optional sign, decimal digits, optional
fractional part, surrounding whitespace tolerated. -/
def parseNumString (s : String) : Option Rat :=
  let l := (strTrim s).toList
  let sl : Int × List Char :=
    match l with
    | '-' :: r => (-1, r)
    | '+' :: r => (1, r)
    | _ => (1, l)
  match sl.2.splitOn '.' with
  | [w] => (digsToNat w).map (fun n => (sl.1 * n : Int))
  | [w, f] =>
    if (w ≠ [] ∨ f ≠ []) ∧ w.all Char.isDigit ∧ f.all Char.isDigit then
      let wn := (w.foldl (fun a c => a * 10 + (c.toNat - 48)) 0 : Nat)
      let fn := (f.foldl (fun a c => a * 10 + (c.toNat - 48)) 0 : Nat)
      some (sl.1 * ((wn : Rat) + (fn : Rat) / ((10 : Rat) ^ f.length)))
    else
      none
  | _ => none

/-- Model of pandas to_numeric with errors coerce on one cell:
numbers pass through, booleans coerce to 0 or 1, numeric strings are
parsed, everything else becomes NaN (none). -/
def pdToNumeric : Cell → Option Rat
  | .num q => some q
  | .bool b => some (if b then 1 else 0)
  | .str s => parseNumString s
  | _ => none

/-- Model of ISO date parsing (YYYY-MM-DD) to an ordered integer
encoding. -/
def parseDateString (s : String) : Option Int :=
  match (strTrim s).toList.splitOn '-' with
  | [y, m, d] =>
    match digsToNat y, digsToNat m, digsToNat d with
    | some yn, some mn, some dn =>
      if y.length = 4 ∧ 1 ≤ mn ∧ mn ≤ 12 ∧ 1 ≤ dn ∧ dn ≤ 31 then
        some ((yn : Int) * 10000 + mn * 100 + dn)
      else
        none
    | _, _, _ => none
  | _ => none

/-- Model of pandas to_datetime with errors coerce on one cell. -/
def pdToDatetime : Cell → Option Int
  | .date d => some d
  | .str s => parseDateString s
  | _ => none

/-- Column dtypes as pandas would infer them for a column built from
well-typed values: all-boolean columns are bool, numeric-or-null
columns are numeric, datetime-or-null columns are datetime64,
everything else is object. -/
inductive Dtype where
  | boolD : Dtype
  | numD : Dtype
  | dateD : Dtype
  | objD : Dtype
deriving DecidableEq, Repr

def colDtype (cells : List Cell) : Dtype :=
  if !cells.isEmpty && cells.all Cell.isBool then .boolD
  else if cells.any Cell.isNum && cells.all (fun c => c.isNum || c.isNull) then .numD
  else if cells.any Cell.isDate && cells.all (fun c => c.isDate || c.isNull) then .dateD
  else .objD

/-- pandas is_numeric_dtype (bool dtype counts as numeric). -/
def isNumericDtype : Dtype → Bool
  | .numD => true
  | .boolD => true
  | _ => false

/-- An in-memory table: ordered column names and rows of cells.
Mirrors the pandas DataFrame threaded through the pipeline. -/
structure Table where
  cols : List String
  rows : List (List Cell)
deriving DecidableEq, Repr

/-- pandas DataFrame.empty: true when either axis has length zero. -/
def Table.isEmptyDf (t : Table) : Bool :=
  t.rows.isEmpty || t.cols.isEmpty

/-- Cell of a row at a column position (missing positions read as
null). -/
def cellAt (r : List Cell) (i : Nat) : Cell :=
  r.getD i .null

/-- The cells of column number i, top to bottom. -/
def Table.getCol (t : Table) (i : Nat) : List Cell :=
  t.rows.map (fun r => cellAt r i)

end Formata

namespace Formata

/-! Embedding of src/backend/app/services/filtering.py. -/

/-- A filter rule: the dict payload of one entry of the filters
mapping (src/backend/app/services/filtering.py). -/
structure Rule where
  op : String := ""
  value : Option Cell := none
  values : List Cell := []
  minv : Option Cell := none
  maxv : Option Cell := none
  startv : Option Cell := none
  endv : Option Cell := none
deriving DecidableEq, Repr

/-- The per-column match test of resolve column: the trimmed
lower-cased key equals the lower-cased column name, or either
contains the other. -/
def resolveMatch (key col : String) : Bool :=
  let k := strTrim (strLower key)
  let cl := strLower col
  k == cl || strContains cl k || strContains k cl

/-- filtering.py resolve column: single pass over the columns,
first column equal to the key (case-insensitively) or containing it
or contained in it wins. -/
def resolve_column (t : Table) (key : String) : Option String :=
  t.cols.find? (fun col => resolveMatch key col)

/-- filtering.py detect column type: bool dtype, numeric dtype,
then a 60 percent datetime-parse vote, else text. -/
def detect_column_type (cells : List Cell) : String :=
  let dt := colDtype cells
  if dt == .boolD then "boolean"
  else if isNumericDtype dt then "numeric"
  else if 5 * (cells.filterMap pdToDatetime).length > 3 * cells.length then "datetime"
  else "text"

/-- filtering.py apply text search: a row survives when some
stringified lower-cased value of some column contains the lowered trimmed
search string; an empty search string leaves the table unchanged. -/
def apply_text_search (t : Table) (value : Option Cell) : Table :=
  let v := strTrim (strLower (operandStr value))
  if v == "" then t
  else
    { t with rows := t.rows.filter (fun r =>
        (List.range t.cols.length).any (fun i =>
          strContains (strLower (cellStr (cellAt r i))) v)) }

/-- First column whose parse count under f clears the strict 60
percent threshold. -/
def findThresholdCol (t : Table) (f : Cell → Option Int) : Option Nat :=
  (List.range t.cols.length).find? (fun i =>
    5 * ((t.getCol i).filterMap f).length > 3 * t.rows.length)

/-- filtering.py apply date range: both bounds must parse, then the
first 60-percent-datetime column is range-filtered inclusively. -/
def apply_date_range (t : Table) (startv endv : Option Cell) : Table :=
  match startv.bind pdToDatetime, endv.bind pdToDatetime with
  | some sd, some ed =>
    match findThresholdCol t pdToDatetime with
    | some i =>
      { t with rows := t.rows.filter (fun r =>
          match pdToDatetime (cellAt r i) with
          | some d => sd ≤ d && d ≤ ed
          | none => false) }
    | none => t
  | _, _ => t

/-- First column whose numeric-parse count clears the strict 60
percent threshold. -/
def findNumericCol (t : Table) : Option Nat :=
  (List.range t.cols.length).find? (fun i =>
    5 * ((t.getCol i).filterMap pdToNumeric).length > 3 * t.rows.length)

/-- filtering.py apply numeric range: both bounds must parse, then
the first 60-percent-numeric column is range-filtered inclusively. -/
def apply_numeric_range (t : Table) (minv maxv : Option Cell) : Table :=
  match minv.bind pdToNumeric, maxv.bind pdToNumeric with
  | some mn, some mx =>
    match findNumericCol t with
    | some i =>
      { t with rows := t.rows.filter (fun r =>
          match pdToNumeric (cellAt r i) with
          | some v => mn ≤ v && v ≤ mx
          | none => false) }
    | none => t
  | _, _ => t

/-- Python truthiness of a filter operand (bool(value)). -/
def pyTruthy : Option Cell → Bool
  | none => false
  | some .null => false
  | some (.bool b) => b
  | some (.num q) => q != 0
  | some (.str s) => s != ""
  | some (.date _) => true

/-- One ordering comparison of the numeric branch: NaN compares
false. -/
def ratCmp (op : String) (a : Option Rat) (v : Rat) : Bool :=
  match a with
  | none => false
  | some a =>
    if op == ">" then decide (a > v)
    else if op == ">=" then decide (a ≥ v)
    else if op == "<" then decide (a < v)
    else decide (a ≤ v)

def optGe (a b : Option Rat) : Bool :=
  match a, b with
  | some a, some b => decide (a ≥ b)
  | _, _ => false

def optLe (a b : Option Rat) : Bool :=
  match a, b with
  | some a, some b => decide (a ≤ b)
  | _, _ => false

def optGeI (a b : Option Int) : Bool :=
  match a, b with
  | some a, some b => decide (a ≥ b)
  | _, _ => false

def optLeI (a b : Option Int) : Bool :=
  match a, b with
  | some a, some b => decide (a ≤ b)
  | _, _ => false

/-- The row mask of one column-specific filter of filtering.py, as an
optional row predicate: none models the branches that leave the
table unchanged (unresolvable column, unusable operator or operand),
some p models filtered_df[mask]. -/
def columnRulePred (t : Table) (key : String) (rule : Rule) : Option (List Cell → Bool) :=
  match resolve_column t key with
  | none => none
  | some column =>
    if column == "" then none
    else
      match t.cols.findIdx? (fun c => c == column) with
      | none => none
      | some i =>
        let series := t.getCol i
        let colType := detect_column_type series
        let op := rule.op
        if colType == "numeric" then
          if op == ">" || op == ">=" || op == "<" || op == "<=" then
            match rule.value.bind pdToNumeric with
            | some v => some (fun r => ratCmp op (pdToNumeric (cellAt r i)) v)
            | none => none
          else if op == "equals" || op == "==" then
            some (fun r =>
              match pdToNumeric (cellAt r i), rule.value.bind pdToNumeric with
              | some a, some b => a == b
              | _, _ => false)
          else if op == "between" then
            some (fun r =>
              optGe (pdToNumeric (cellAt r i)) (rule.minv.bind pdToNumeric) &&
              optLe (pdToNumeric (cellAt r i)) (rule.maxv.bind pdToNumeric))
          else none
        else if colType == "datetime" then
          if op == "range" || op == "between" then
            some (fun r =>
              optGeI (pdToDatetime (cellAt r i)) (rule.startv.bind pdToDatetime) &&
              optLeI (pdToDatetime (cellAt r i)) (rule.endv.bind pdToDatetime))
          else if op == "equals" || op == "==" then
            some (fun r =>
              match pdToDatetime (cellAt r i), rule.value.bind pdToDatetime with
              | some a, some b => a == b
              | _, _ => false)
          else none
        else if colType == "boolean" then
          some (fun r => cellAt r i == Cell.bool (pyTruthy rule.value))
        else
          if op == "equals" || op == "==" then
            some (fun r =>
              strTrim (strLower (cellStr (cellAt r i))) == strLower (operandStr rule.value))
          else if op == "contains" then
            some (fun r =>
              strContains (strLower (strTrim (cellStr (cellAt r i)))) (strLower (operandStr rule.value)))
          else if op == "starts_with" then
            some (fun r =>
              (operandStr rule.value).toList.isPrefixOf (strTrim (cellStr (cellAt r i))).toList)
          else if op == "ends_with" then
            some (fun r =>
              (operandStr rule.value).toList.reverse.isPrefixOf (strTrim (cellStr (cellAt r i))).toList.reverse)
          else if op == "in" then
            some (fun r =>
              (rule.values.map (fun c => strLower (cellStr c))).contains
                (strTrim (strLower (cellStr (cellAt r i)))))
          else none

/-- Application of one column-specific filter entry. -/
def apply_column_rule (t : Table) (key : String) (rule : Rule) : Table :=
  match columnRulePred t key rule with
  | none => t
  | some p => { t with rows := t.rows.filter p }

def lookupRule (filters : List (String × Rule)) (k : String) : Option Rule :=
  (filters.find? (fun pr => pr.1 == k)).map (fun pr => pr.2)

/-- The textSearch global section of apply_filters. -/
def textSearchStage (t : Table) (filters : List (String × Rule)) : Table :=
  match lookupRule filters "_textSearch" with
  | some rule => if rule.op == "contains" then apply_text_search t rule.value else t
  | none => t

/-- The dateRange global section of apply_filters. -/
def dateRangeStage (t : Table) (filters : List (String × Rule)) : Table :=
  match lookupRule filters "_dateRange" with
  | some rule =>
    if rule.op == "range" || rule.op == "between" then
      apply_date_range t rule.startv rule.endv
    else t
  | none => t

/-- The numericRange global section of apply_filters. -/
def numericRangeStage (t : Table) (filters : List (String × Rule)) : Table :=
  match lookupRule filters "_numericRange" with
  | some rule =>
    if rule.op == "between" then apply_numeric_range t rule.minv rule.maxv else t
  | none => t

/-- The column-specific loop of apply_filters: every non-underscore
entry narrows the surviving rows in mapping order. -/
def columnStage (t : Table) (filters : List (String × Rule)) : Table :=
  filters.foldl (fun acc kr =>
    if strStarts kr.1 "_" then acc else apply_column_rule acc kr.1 kr.2) t

/-- filtering.py apply_filters: empty tables and empty filter maps
pass through; the three global filters run first in fixed order,
then every non-underscore entry narrows the surviving rows in
mapping order. -/
def apply_filters (t : Table) (filters : List (String × Rule)) : Table :=
  if t.isEmptyDf || filters.isEmpty then t
  else
    columnStage
      (numericRangeStage (dateRangeStage (textSearchStage t filters) filters) filters)
      filters

end Formata

namespace Formata

/-! Embedding of src/backend/app/services/normalization.py
(standardize_columns). -/

/-- A word character in the sense of the regex character class used
by the normalizer (alphanumeric or underscore, ASCII model). -/
def isWordChar (c : Char) : Bool :=
  c.isAlphanum || c == '_'

/-- Collapse runs of consecutive underscores to a single
underscore. -/
def collapseU : List Char → List Char
  | [] => []
  | [c] => [c]
  | c :: d :: r =>
    if c == '_' && d == '_' then collapseU (d :: r) else c :: collapseU (d :: r)

/-- Strip leading and trailing underscores (Python strip with an
underscore argument). -/
def stripU (l : List Char) : List Char :=
  ((l.dropWhile (fun c => c == '_')).reverse.dropWhile (fun c => c == '_')).reverse

/-- The per-name cleaning pipeline of standardize_columns: strip,
lower-case, replace non-word characters by underscores, collapse
underscore runs, strip underscores.  Replacing each non-word
character by an underscore and then collapsing underscore runs gives
the same result as the two regex substitutions of the source. -/
def clean_name (col : String) : String :=
  String.mk (stripU (collapseU
    ((strLower (strTrim col)).toList.map (fun c => if isWordChar c then c else '_'))))

/-- Decimal digits of a natural number (fuel-based so that it
reduces in the kernel); model of the Python decimal formatting used
for collision suffixes. -/
def natReprAux : Nat → Nat → List Char
  | 0, _ => []
  | fuel + 1, n =>
    if n < 10 then [Char.ofNat (48 + n % 10)]
    else natReprAux fuel (n / 10) ++ [Char.ofNat (48 + n % 10)]

def natRepr (n : Nat) : String :=
  String.mk (natReprAux (n + 1) n)

/-- Update the counter of a key of the seen mapping. -/
def updSeen (seen : List (String × Nat)) (key : String) (v : Nat) : List (String × Nat) :=
  seen.map (fun p => if p.1 == key then (p.1, v) else p)

/-- The column-renaming loop of standardize_columns: clean each name
(empty results become the literal "column"), resolving collisions by
appending an underscore and the incremented per-name counter. -/
def assignNames : List String → List (String × Nat) → List String
  | [], _ => []
  | col :: rest, seen =>
    let cl := clean_name col
    let cl := if cl == "" then "column" else cl
    match seen.find? (fun p => p.1 == cl) with
    | some p =>
      let k := p.2 + 1
      (cl ++ "_" ++ natRepr k) :: assignNames rest (updSeen seen cl k)
    | none => cl :: assignNames rest ((cl, 0) :: seen)

/-- normalization.py standardize_columns: empty frames pass through,
otherwise every column name is canonicalized with deterministic
collision suffixes. -/
def standardize_columns (t : Table) : Table :=
  if t.isEmptyDf then t
  else { t with cols := assignNames t.cols [] }

end Formata

namespace Formata

/-! Embedding of src/backend/app/services/noise.py. -/

/-- Keep the first occurrence per distinct key (model of pandas
drop_duplicates and of filtering by a duplicated mask). -/
def keepFirstsBy {α β : Type} [DecidableEq β] (f : α → β) : List α → List β → List α
  | [], _ => []
  | x :: xs, seen =>
    if f x ∈ seen then keepFirstsBy f xs seen
    else x :: keepFirstsBy f xs (f x :: seen)

/-- Cell normalization of the fuzzy duplicate pass: non-null cells
stringified, trimmed and lower-cased; nulls become the empty
string. -/
def normCell (c : Cell) : String :=
  if c.isNull then "" else strLower (strTrim (cellStr c))

def strJoin (sep : String) : List String → String
  | [] => ""
  | [x] => x
  | x :: y :: r => x ++ sep ++ strJoin sep (y :: r)

/-- The stable per-row fingerprint of the fuzzy duplicate pass. -/
def fingerprint (r : List Cell) : String :=
  strJoin "|" (r.map normCell)

/-- noise.py remove_duplicates: exact drop_duplicates first; only
when it removes nothing, the normalized-fingerprint pass keeps the
first occurrence per fingerprint. -/
def remove_duplicates (t : Table) : Table :=
  if t.isEmptyDf then t
  else
    let deduped := keepFirstsBy id t.rows []
    let exactRemoved := t.rows.length - deduped.length
    if exactRemoved == 0 then
      { t with rows := keepFirstsBy fingerprint t.rows [] }
    else
      { t with rows := deduped }

/-- Linear-interpolation quantile of a sorted nonempty list (pandas
Series.quantile default interpolation). -/
def quantileSorted (xs : List Rat) (q : Rat) : Rat :=
  let n := xs.length
  let h : Rat := q * ((n - 1 : Nat) : Rat)
  let lo : Nat := h.floor.toNat
  let frac : Rat := h - (h.floor : Rat)
  let a := xs.getD lo 0
  let b := xs.getD (lo + 1) a
  a + frac * (b - a)

/-- pandas Series.quantile: nulls dropped, empty series give NaN. -/
def seriesQuantile (vals : List Rat) (q : Rat) : Option Rat :=
  if vals.isEmpty then none
  else some (quantileSorted (vals.insertionSort (fun a b => a ≤ b)) q)

/-- Number of distinct values (pandas nunique with dropna). -/
def nuniq (vals : List Rat) : Nat :=
  (keepFirstsBy id vals []).length

/-- One column of the outlier loop of noise.py remove_outliers. -/
def outlierStep (cur : Table) (c : String) : Table :=
  match cur.cols.findIdx? (fun n => n == c) with
  | none => cur
  | some i =>
    let vals := (cur.getCol i).filterMap pdToNumeric
    if vals.length < 10 || nuniq vals ≤ 2 then cur
    else
      match seriesQuantile vals (1/4), seriesQuantile vals (3/4) with
      | some q1, some q3 =>
        let iqr := q3 - q1
        if iqr == 0 then cur
        else
          let lower := q1 - 3/2 * iqr
          let upper := q3 + 3/2 * iqr
          { cur with rows := cur.rows.filter (fun r =>
              match pdToNumeric (cellAt r i) with
              | some v => lower ≤ v && v ≤ upper
              | none => false) }
      | _, _ => cur

/-- noise.py remove_outliers: auto-detect 60-percent-numeric columns
when none are given, then drop out-of-IQR-bound rows column by
column, skipping sparse and near-constant columns. -/
def remove_outliers (t : Table) (columns : List String) : Table :=
  if t.isEmptyDf then t
  else
    let cols :=
      if columns.isEmpty then
        t.cols.filter (fun c =>
          match t.cols.findIdx? (fun n => n == c) with
          | some i => 5 * ((t.getCol i).filterMap pdToNumeric).length > 3 * t.rows.length
          | none => false)
      else columns
    cols.foldl outlierStep t

end Formata

namespace Formata

/-! Embedding of src/backend/app/services/type_enforcement.py. -/

def Cell.isStr : Cell → Bool
  | .str _ => true
  | _ => false

/-- The per-column content analysis of detect_column_types: boolean
vote, integer-versus-float vote, datetime vote against the
confidence threshold, else string. -/
def detectOne (cells : List Cell) (threshold : Rat) : String :=
  let series := cells.filter (fun c => !c.isNull)
  if series.isEmpty then "string"
  else
    let strS := series.map (fun c => strLower (strTrim (cellStr c)))
    let total := series.length
    let boolVals := ["true", "false", "1", "0", "yes", "no", "t", "f", "y", "n"]
    let boolMatches := (strS.filter (fun s => boolVals.contains s)).length
    if (boolMatches : Rat) / (total : Rat) ≥ threshold then "bool"
    else
      let validNumeric := series.filterMap pdToNumeric
      if (validNumeric.length : Rat) / (total : Rat) ≥ threshold then
        if validNumeric.all (fun q => q.den == 1) then "int" else "float"
      else
        let dts := (series.filterMap pdToDatetime).length
        if (dts : Rat) / (total : Rat) ≥ threshold then "datetime" else "string"

/-- type_enforcement.py detect_column_types over all columns
(confidence threshold 0.8 by default at call sites). -/
def detect_column_types (t : Table) (threshold : Rat) : List (String × String) :=
  (List.range t.cols.length).map (fun i =>
    (t.cols.getD i "", detectOne (t.getCol i) threshold))

/-- Python dict update: values of existing keys are overwritten in
place, novel keys are appended in order. -/
def mergeUpdate (base upd : List (String × String)) : List (String × String) :=
  (base.map (fun p =>
    match upd.find? (fun q => q.1 == p.1) with
    | some q => (p.1, q.2)
    | none => p)) ++
  upd.filter (fun q => !(base.any (fun p => p.1 == q.1)))

/-- The enforcement report: recorded conversions and column-level
errors (columns_enforced is the number of recorded conversions,
incremented exactly when a conversion entry is recorded). -/
structure EnforceReport where
  conversions : List (String × String) := []
  errors : List String := []
deriving DecidableEq, Repr

def EnforceReport.columns_enforced (r : EnforceReport) : Nat :=
  r.conversions.length

/-- The boolean mapping of the bool branch of enforce_types. -/
def boolMap (s : String) : Option Bool :=
  if s == "true" || s == "t" || s == "yes" || s == "y" || s == "1" then some true
  else if s == "false" || s == "f" || s == "no" || s == "n" || s == "0" then some false
  else none

def setColumn (t : Table) (i : Nat) (cells : List Cell) : Table :=
  { t with rows := List.zipWith (fun r c => r.set i c) t.rows cells }

/-- One iteration of the enforcement loop of enforce_types: a
missing column records an error; the int branch raises (caught, the
column left unchanged, an error recorded) when some coerced value is
non-integral, mirroring the unsafe Int64 cast; other branches coerce
cell-wise with failures becoming null. -/
def enforceCol (t : Table) (col target : String) (rep : EnforceReport) : Table × EnforceReport :=
  match t.cols.findIdx? (fun c => c == col) with
  | none =>
    (t, { rep with errors :=
      rep.errors ++ ["Column " ++ col ++ " not found in DataFrame"] })
  | some i =>
    let cells := t.getCol i
    if target == "bool" then
      let newCells := cells.map (fun c =>
        match boolMap (strLower (strTrim (cellStr c))) with
        | some b => Cell.bool b
        | none => Cell.null)
      (setColumn t i newCells, { rep with conversions := rep.conversions ++ [(col, target)] })
    else if target == "int" then
      let nums := cells.map pdToNumeric
      if nums.any (fun o =>
          match o with
          | some q => q.den != 1
          | none => false) then
        (t, { rep with errors :=
          rep.errors ++ ["Failed to enforce type for column " ++ col] })
      else
        let newCells := nums.map (fun o =>
          match o with
          | some q => Cell.num q
          | none => Cell.null)
        (setColumn t i newCells, { rep with conversions := rep.conversions ++ [(col, target)] })
    else if target == "float" then
      let newCells := cells.map (fun c =>
        match pdToNumeric c with
        | some q => Cell.num q
        | none => Cell.null)
      (setColumn t i newCells, { rep with conversions := rep.conversions ++ [(col, target)] })
    else if target == "datetime" then
      let newCells := cells.map (fun c =>
        match pdToDatetime c with
        | some d => Cell.date d
        | none => Cell.null)
      (setColumn t i newCells, { rep with conversions := rep.conversions ++ [(col, target)] })
    else if target == "string" then
      let newCells := cells.map (fun c =>
        let s := cellStr c
        if s == "nan" then Cell.null else Cell.str s)
      (setColumn t i newCells, { rep with conversions := rep.conversions ++ [(col, target)] })
    else
      (t, { rep with conversions := rep.conversions ++ [(col, target)] })

/-- type_enforcement.py enforce_types: optional auto-detection
merged under the caller-supplied map, then the per-column
enforcement loop. -/
def enforce_types (t : Table) (type_map : List (String × String)) (auto_detect : Bool) :
    Table × EnforceReport :=
  if t.isEmptyDf then (t, {})
  else
    let tm := if auto_detect then mergeUpdate (detect_column_types t (4/5)) type_map else type_map
    if tm.isEmpty then (t, {})
    else tm.foldl (fun acc p => enforceCol acc.1 p.1 p.2 acc.2) (t, {})

/-- One range rule of validate_ranges. -/
structure RangeRule where
  minv : Option Rat := none
  maxv : Option Rat := none
  action : String := "flag"
deriving DecidableEq, Repr

/-- One recorded range violation of validate_ranges. -/
structure RangeViolation where
  column : String
  rule : String
  expected : Rat
  violations_count : Nat
deriving DecidableEq, Repr

/-- One column of the validate_ranges loop.  The numeric masks are
computed once from the state of the table at the start of the
iteration; violations are recorded from those masks before the
action runs, and the max-side action is index-aligned with the rows
surviving the min-side action. -/
def rangeStep (t : Table) (col : String) (rules : RangeRule) (vs : List RangeViolation) :
    Table × List RangeViolation :=
  match t.cols.findIdx? (fun c => c == col) with
  | none => (t, vs)
  | some i =>
    let nums := t.rows.map (fun r => pdToNumeric (cellAt r i))
    let below := nums.map (fun v =>
      match v, rules.minv with
      | some v, some m => decide (v < m)
      | _, _ => false)
    let above := nums.map (fun v =>
      match v, rules.maxv with
      | some v, some m => decide (v > m)
      | _, _ => false)
    let ann := List.zipWith (fun rb a => (rb.1, rb.2, a)) (List.zipWith (fun r b => (r, b)) t.rows below) above
    let minHit := rules.minv.isSome && below.any id
    let vs1 := if minHit then
        vs ++ [⟨col, "min", (rules.minv.getD 0), below.count true⟩]
      else vs
    let ann1 := if minHit then
        if rules.action == "drop" then ann.filter (fun p => !p.2.1)
        else if rules.action == "clip" then
          ann.map (fun p => (if p.2.1 then p.1.set i (Cell.num (rules.minv.getD 0)) else p.1, p.2.1, p.2.2))
        else ann
      else ann
    let maxHit := rules.maxv.isSome && above.any id
    let vs2 := if maxHit then
        vs1 ++ [⟨col, "max", (rules.maxv.getD 0), above.count true⟩]
      else vs1
    let ann2 := if maxHit then
        if rules.action == "drop" then ann1.filter (fun p => !p.2.2)
        else if rules.action == "clip" then
          ann1.map (fun p => (if p.2.2 then p.1.set i (Cell.num (rules.maxv.getD 0)) else p.1, p.2.1, p.2.2))
        else ann1
      else ann1
    ({ t with rows := ann2.map (fun p => p.1) }, vs2)

/-- type_enforcement.py validate_ranges: per rule, record min and
max violations from the coerced column and apply the flag, drop or
clip action. -/
def validate_ranges (t : Table) (range_rules : List (String × RangeRule)) :
    Table × List RangeViolation :=
  if t.isEmptyDf || range_rules.isEmpty then (t, [])
  else range_rules.foldl (fun acc pr => rangeStep acc.1 pr.1 pr.2 acc.2) (t, [])

end Formata

namespace Formata

/-! Embedding of src/backend/app/services/validation.py. -/

/-- Declarative schema rules of one field. -/
structure FieldRules where
  required : Bool := false
  ftype : Option String := none
  fmin : Option Rat := none
  fmax : Option Rat := none
deriving DecidableEq, Repr

/-- validation.py internal type checker: nulls pass (null handling
is done via required), number means float-coercible, datetime means
parseable, unknown type names pass. -/
def check_type (value : Cell) (expected : String) : Bool :=
  if value.isNull then true
  else if expected == "string" then value.isStr
  else if expected == "number" then (pdToNumeric value).isSome
  else if expected == "boolean" then value.isBool
  else if expected == "datetime" then (pdToDatetime value).isSome
  else true

/-- dict.get of a record row (missing and None coincide in this
model). -/
def rowGet (row : List (String × Cell)) (field : String) : Cell :=
  match row.find? (fun p => p.1 == field) with
  | some p => p.2
  | none => Cell.null

/-- One field check of validate_schema (required, type, numeric
bounds, in source order with early failure). -/
def checkField (row : List (String × Cell)) (field : String) (rules : FieldRules) : Bool :=
  let value := rowGet row field
  if rules.required && value.isNull then false
  else
    match rules.ftype with
    | none => true
    | some et =>
      if !(check_type value et) then false
      else if et == "number" && !value.isNull then
        let v := (pdToNumeric value).getD 0
        if (match rules.fmin with
            | some m => decide (v < m)
            | none => false) then false
        else if (match rules.fmax with
            | some m => decide (v > m)
            | none => false) then false
        else true
      else true

/-- validation.py validate_schema on a record list. -/
def validate_schema (records : List (List (String × Cell))) (schema : List (String × FieldRules)) :
    Bool :=
  if schema.isEmpty then true
  else records.all (fun row => schema.all (fun fr => checkField row fr.1 fr.2))

/-- df.to_dict with records orientation. -/
def tableRecords (t : Table) : List (List (String × Cell)) :=
  t.rows.map (fun r => (List.range t.cols.length).map (fun i => (t.cols.getD i "", cellAt r i)))

/-- validation.py completeness sub-score: missing-cell ratio plus a
capped penalty for columns whose reported missing percentage exceeds
50, clamped to the 0 to 100 range. -/
def calculate_completeness_score (t : Table) (missingRep : Option (List (String × Rat))) : Rat :=
  let total := t.rows.length * t.cols.length
  if total == 0 then 100
  else
    let missing := (t.rows.map (fun r =>
      ((List.range t.cols.length).filter (fun i => (cellAt r i).isNull)).length)).sum
    let score := (1 - (missing : Rat) / (total : Rat)) * 100
    let score :=
      match missingRep with
      | some colsRep =>
        let high := (colsRep.filter (fun p => p.2 > 50)).length
        if high > 0 then max 0 (score - min 20 ((high : Rat) * 5)) else score
      | none => score
    max 0 (min 100 score)

/-- validation.py validity sub-score: capped penalties for type
enforcement errors and for validation errors relative to row count,
then a capped bonus for full schema compliance, clamped. -/
def calculate_validity_score (t : Table) (schema : List (String × FieldRules))
    (typeRep : Option EnforceReport) (verrs : List String) : Rat :=
  let score : Rat := 100
  let score :=
    match typeRep with
    | some rep =>
      if !rep.errors.isEmpty then score - min 40 ((rep.errors.length : Rat) * 5) else score
    | none => score
  let score :=
    if !verrs.isEmpty then
      score - min 40 ((verrs.length : Rat) / ((max t.rows.length 1 : Nat) : Rat) * 100)
    else score
  let score :=
    if !schema.isEmpty then
      if validate_schema (tableRecords t) schema then min 100 (score + 10) else score
    else score
  max 0 (min 100 score)

/-- Python str.isupper (at least one cased character and no
lower-case one, ASCII model). -/
def pyIsUpper (s : String) : Bool :=
  s.toList.any Char.isAlpha && s.toList.all (fun c => !c.isAlpha || c.isUpper)

/-- Python str.islower. -/
def pyIsLower (s : String) : Bool :=
  s.toList.any Char.isAlpha && s.toList.all (fun c => !c.isAlpha || c.isLower)

/-- validation.py consistency sub-score.  The coefficient-of-
variation thresholds are expressed through the equivalent decidable
comparisons of the sample variance against the squared mean
(cv greater than k iff variance greater than k squared times mean
squared, both sides being nonnegative). -/
def calculate_consistency_score (t : Table) : Rat :=
  if t.rows.length == 0 then 100
  else
    let colScores := (List.range t.cols.length).filterMap (fun i =>
      let cells := t.getCol i
      let nonNull := cells.filter (fun c => !c.isNull)
      if nonNull.isEmpty then none
      else
        let base : Rat := 100
        let dt := colDtype cells
        let s1 :=
          if dt == .objD then
            let strVals := nonNull.map cellStr
            let hasU := strVals.any pyIsUpper
            let hasL := strVals.any pyIsLower
            let hasM := strVals.any (fun s => !pyIsUpper s && !pyIsLower s)
            let caseCnt : Nat := (if hasU then 1 else 0) + (if hasL then 1 else 0) +
              (if hasM then 1 else 0)
            let p1 := if caseCnt > 1 then base - 15 else base
            if strVals.any (fun s => s != strTrim s) then p1 - 10 else p1
          else base
        let s2 :=
          if isNumericDtype dt then
            let numeric := nonNull.filterMap pdToNumeric
            if numeric.length > 1 then
              let n := numeric.length
              let mean := numeric.sum / (n : Rat)
              if mean ≠ 0 then
                let svar := (numeric.map (fun x => (x - mean) ^ 2)).sum / ((n : Rat) - 1)
                if svar > 4 * mean ^ 2 then s1 - 20
                else if svar > mean ^ 2 then s1 - 10
                else s1
              else s1
            else s1
          else s1
        some (max 0 s2))
    let score := if colScores.isEmpty then (100 : Rat) else colScores.sum / (colScores.length : Rat)
    max 0 (min 100 score)

/-- validation.py accuracy sub-score: capped penalties for the
duplicate-row ratio and for the mean IQR-outlier ratio across
numeric-dtype columns with at least 4 non-null values and positive
IQR. -/
def calculate_accuracy_score (t : Table) : Rat :=
  if t.rows.length == 0 then 100
  else
    let n := t.rows.length
    let dup := n - (keepFirstsBy id t.rows []).length
    let score : Rat := 100
    let score := if dup > 0 then score - min 30 ((dup : Rat) / (n : Rat) * 100) else score
    let ratios := (List.range t.cols.length).filterMap (fun i =>
      if colDtype (t.getCol i) == .numD then
        let nonNull := (t.getCol i).filterMap (fun c =>
          match c with
          | .num q => some q
          | _ => none)
        if nonNull.length < 4 then none
        else
          match seriesQuantile nonNull (1/4), seriesQuantile nonNull (3/4) with
          | some q1, some q3 =>
            let iqr := q3 - q1
            if iqr > 0 then
              let lower := q1 - 3/2 * iqr
              let upper := q3 + 3/2 * iqr
              some (((nonNull.filter (fun v => v < lower || v > upper)).length : Rat) /
                (nonNull.length : Rat))
            else none
          | _, _ => none
      else none)
    let score :=
      if ratios.length > 0 then score - min 30 (ratios.sum / (ratios.length : Rat) * 100)
      else score
    max 0 (min 100 score)

/-- validation.py grade mapping. -/
def assign_quality_grade (score : Rat) : String :=
  if score ≥ 90 then "A"
  else if score ≥ 80 then "B"
  else if score ≥ 70 then "C"
  else if score ≥ 60 then "D"
  else "F"

/-- Round half to even at the integer (model of Python round). -/
def roundHE (x : Rat) : Int :=
  let f := x.floor
  let frac := x - (f : Rat)
  if frac < 1/2 then f
  else if frac > 1/2 then f + 1
  else if f % 2 == 0 then f else f + 1

/-- Python round(x, 2). -/
def round2 (x : Rat) : Rat :=
  ((roundHE (x * 100) : Rat)) / 100

/-- The quality-score payload returned by
calculate_data_quality_score (display scores rounded to two
decimals, grade computed from the exact overall score). -/
structure QualityScore where
  overall_score : Rat
  completeness_score : Rat
  validity_score : Rat
  consistency_score : Rat
  accuracy_score : Rat
  grade : String
deriving DecidableEq, Repr

/-- validation.py calculate_data_quality_score: zero scores and
grade F on an empty frame, otherwise the four sub-scores weighted
30/30/20/20. -/
def calculate_data_quality_score (t : Table) (schema : List (String × FieldRules))
    (missingRep : Option (List (String × Rat))) (typeRep : Option EnforceReport)
    (verrs : List String) : QualityScore :=
  if t.isEmptyDf then ⟨0, 0, 0, 0, 0, "F"⟩
  else
    let c := calculate_completeness_score t missingRep
    let v := calculate_validity_score t schema typeRep verrs
    let cons := calculate_consistency_score t
    let acc := calculate_accuracy_score t
    let overall := c * (3/10) + v * (3/10) + cons * (1/5) + acc * (1/5)
    ⟨round2 overall, round2 c, round2 v, round2 cons, round2 acc, assign_quality_grade overall⟩

end Formata

namespace Formata

/-! Embedding of src/backend/app/jobs/store.py together with the
error-flow skeleton of src/backend/app/services/pipeline.py
(ProcessingPipeline.run_async) and
src/backend/app/jobs/worker.py (process_job_async).  Wall-clock
datetime.now is passed in as explicit tick arguments. -/

inductive JobStatus where
  | pending : JobStatus
  | processing : JobStatus
  | completed : JobStatus
  | failed : JobStatus
  | cancelled : JobStatus
deriving DecidableEq, Repr

def JobStatus.isTerminal : JobStatus → Bool
  | .completed => true
  | .failed => true
  | .cancelled => true
  | _ => false

/-- The result payload returned by run_async, restricted to the
fields the error-handling claims are about: the payload status
string, the accumulated error messages, and whether an error-report
file was written. -/
structure RunResult where
  status : String
  errors : List String
  error_report : Bool
deriving DecidableEq, Repr

/-- A job entity of store.py (progress updates and metadata carry no
information for these claims beyond their fields). -/
structure Job where
  job_id : String
  status : JobStatus := .pending
  started_at : Option Nat := none
  completed_at : Option Nat := none
  progress : Rat := 0
  result : Option RunResult := none
  errors : List String := []
deriving DecidableEq, Repr

/-- The in-memory job registry. -/
abbrev JobStore := List (String × Job)

def lookupJob (store : JobStore) (job_id : String) : Option Job :=
  ((store : List (String × Job)).find? (fun p => p.1 == job_id)).map (fun p => p.2)

def mapJob (store : JobStore) (job_id : String) (f : Job → Job) : JobStore :=
  (store : List (String × Job)).map (fun p => if p.1 == job_id then (p.1, f p.2) else p)

/-- The status-and-timestamp assignment of
JobStore.update_job_status: the status is assigned unconditionally,
processing stamps started_at, any terminal status stamps
completed_at. -/
def applyStatus (j : Job) (st : JobStatus) (now : Nat) : Job :=
  match st with
  | .processing => { j with status := st, started_at := some now }
  | .completed => { j with status := st, completed_at := some now }
  | .failed => { j with status := st, completed_at := some now }
  | .cancelled => { j with status := st, completed_at := some now }
  | .pending => { j with status := st }

/-- store.py JobStore.update_job_status. -/
def update_job_status (store : JobStore) (job_id : String) (st : JobStatus) (now : Nat) :
    JobStore × Bool :=
  match lookupJob store job_id with
  | none => (store, false)
  | some _ => (mapJob store job_id (fun j => applyStatus j st now), true)

/-- store.py JobStore.update_job_progress. -/
def update_job_progress (store : JobStore) (job_id : String) (p : Rat) : JobStore × Bool :=
  match lookupJob store job_id with
  | none => (store, false)
  | some _ => (mapJob store job_id (fun j => { j with progress := max 0 (min 1 p) }), true)

/-- store.py JobStore.add_job_error. -/
def add_job_error (store : JobStore) (job_id : String) (err : String) : JobStore × Bool :=
  match lookupJob store job_id with
  | none => (store, false)
  | some _ => (mapJob store job_id (fun j => { j with errors := j.errors ++ [err] }), true)

/-- store.py JobStore.set_job_result. -/
def set_job_result (store : JobStore) (job_id : String) (result : RunResult) :
    JobStore × Bool :=
  match lookupJob store job_id with
  | none => (store, false)
  | some _ => (mapJob store job_id (fun j => { j with result := some result }), true)

/-- A fresh job as created by JobStore.create_job. -/
def newJob (job_id : String) : Job :=
  { job_id := job_id }

/-- pipeline.py ProcessingPipeline.run_async, abstracted over the
outcome of the staged body: pre_errors are the non-fatal messages
accumulated in the result error list before the end of the run (or
before the raise point), stage_exc the exception escaping some
stage.  A raised exception is caught by the top-level handler, which
marks the result payload failed, appends the message, and writes an
error report; a completed run writes the error report exactly when
errors were accumulated. -/
def run_async (pre_errors : List String) (stage_exc : Option String) : RunResult :=
  match stage_exc with
  | some m =>
    { status := "failed", errors := pre_errors ++ [m], error_report := true }
  | none =>
    { status := "completed", errors := pre_errors, error_report := !pre_errors.isEmpty }

/-- worker.py process_job_async: set processing, run the pipeline,
store the returned result and mark the job completed.  run_async
catches every stage exception internally and returns normally, so
the exception handler of the worker itself (add_job_error plus a failed
status) is not reached on a stage failure. -/
def process_job_async (store : JobStore) (job_id : String) (pre_errors : List String)
    (stage_exc : Option String) (t1 t2 : Nat) : JobStore :=
  let s1 := (update_job_status store job_id .processing t1).1
  let s2 := (update_job_progress s1 job_id (1/10)).1
  let result := run_async pre_errors stage_exc
  let s3 := (set_job_result s2 job_id result).1
  (update_job_status s3 job_id .completed t2).1

end Formata

namespace Formata

/-! Concrete tables used to instantiate the claims. -/

/-- The three-row table of the conjunctive-filter scenario. -/
def filterTestTable : Table :=
  ⟨["name", "age"],
   [[.str "John Smith", .num 25], [.str "Jane Doe", .num 30], [.str "Bob Johnson", .num 35]]⟩

/-- A table with one exact duplicate pair and one case-variant
pair. -/
def dupTestTable : Table :=
  ⟨["v"], [[.str "x"], [.str "x"], [.str "A"], [.str "a"]]⟩

/-- A table whose rows are pairwise distinct but share a normalized
fingerprint. -/
def fuzzyDupTable : Table :=
  ⟨["v"], [[.str "A"], [.str "a"]]⟩

/-- Column names where collision suffixing collides with a literal
later name. -/
def nameCollisionTable : Table :=
  ⟨["a", "a", "a_1"], [[.null, .null, .null]]⟩

/-- Columns where an earlier name matches the key only as a
substring and a later name matches it exactly. -/
def userNameTable : Table :=
  ⟨["username", "name"], [[.null, .null]]⟩

/-- The age column of the range-clip scenario. -/
def ageRangeTable : Table :=
  ⟨["age"], [[.num 25], [.num 150], [.num 35], [.num (-5)], [.num 45]]⟩

/-- Integer-valued and unconvertible numeric strings. -/
def intStringsTable : Table :=
  ⟨["age"], [[.str "25"], [.str "abc"], [.str "30"]]⟩

/-- Ten numeric values, a null and a non-numeric string in one
column. -/
def outlierTable : Table :=
  ⟨["age"],
   [[.num 1], [.num 2], [.num 3], [.num 4], [.num 5], [.num 6], [.num 7], [.num 8],
    [.num 9], [.num 10], [.null], [.str "x"]]⟩

/-- A minimal nonempty table for quality scoring. -/
def qualityTable : Table :=
  ⟨["a"], [[.num 5]]⟩

end Formata

namespace Formata

/-- Characterization of a stable column name: nonempty, made of
word characters already fixed by lower-casing, without consecutive,
leading or trailing underscores.  Names of this shape are fixed
points of the cleaning pipeline of standardize_columns. -/
def CleanName (s : String) : Prop :=
  s.toList ≠ [] ∧
  (∀ c ∈ s.toList, isWordChar c = true ∧ Char.toLower c = c) ∧
  s.toList.Chain' (fun a b => ¬(a = '_' ∧ b = '_')) ∧
  s.toList.head? ≠ some '_' ∧
  s.toList.getLast? ≠ some '_'

instance (s : String) : Decidable (CleanName s) :=
  inferInstanceAs (Decidable (s.toList ≠ [] ∧
    (∀ c ∈ s.toList, isWordChar c = true ∧ Char.toLower c = c) ∧
    s.toList.Chain' (fun a b => ¬(a = '_' ∧ b = '_')) ∧
    s.toList.head? ≠ some '_' ∧
    s.toList.getLast? ≠ some '_'))

end Formata

namespace Formata

/-! Theorems for the claims, preceded by shared helper lemmas. -/

theorem lookupJob_mapJob (store : JobStore) (id : String) (f : Job → Job) :
    lookupJob (mapJob store id f) id = (lookupJob store id).map f := by
  induction store with
  | nil => rfl
  | cons p rest ih =>
    show lookupJob ((if p.1 == id then (p.1, f p.2) else p) :: mapJob rest id f) id = _
    by_cases h : p.1 == id
    · rw [if_pos h]
      have e1 : List.find? (fun q : String × Job => q.1 == id)
          ((p.1, f p.2) :: mapJob rest id f) = some (p.1, f p.2) :=
        List.find?_cons_of_pos _ (by simpa using h)
      have e2 : List.find? (fun q : String × Job => q.1 == id) (p :: rest) = some p :=
        List.find?_cons_of_pos _ h
      simp [lookupJob, e1, e2]
    · rw [if_neg h]
      have e1 : List.find? (fun q : String × Job => q.1 == id) (p :: mapJob rest id f) =
          List.find? (fun q : String × Job => q.1 == id) (mapJob rest id f) :=
        List.find?_cons_of_neg _ h
      have e2 : List.find? (fun q : String × Job => q.1 == id) (p :: rest) =
          List.find? (fun q : String × Job => q.1 == id) rest :=
        List.find?_cons_of_neg _ h
      simpa [lookupJob, e1, e2] using ih

/-- C6 counterexample: the table has a column whose lower-cased name
equals the key "name" exactly, yet resolution returns the earlier
column "username", which matches only as a substring — refuting the
exact-match-first claim. -/
theorem c6_counterexample :
    resolve_column userNameTable "name" = some "username" ∧
    resolve_column userNameTable "name" ≠ some "name" := by
  decide

/-- C6 (amended): column resolution is a single pass in declaration
order; the winner is the first column matching the key exactly or by
substring in either direction, with no priority for exact matches.
Whenever any column matches (in particular when an exact match
exists), resolution returns some column, though not necessarily the
exactly matching one. -/
theorem c6_fuzzy_resolution_first_match :
    (∀ (t : Table) (key : String) (c : String),
      resolve_column t key = some c →
      resolveMatch key c = true ∧
      ∃ l1 l2, t.cols = l1 ++ c :: l2 ∧ ∀ d ∈ l1, resolveMatch key d = false) ∧
    (∀ (t : Table) (key : String),
      (∃ c ∈ t.cols, resolveMatch key c = true) →
      ∃ c, resolve_column t key = some c) := by
  constructor
  · intro t key c h
    rw [resolve_column, List.find?_eq_some] at h
    obtain ⟨hc, l1, l2, heq, hprev⟩ := h
    exact ⟨hc, l1, l2, heq, fun d hd => by simpa using hprev d hd⟩
  · rintro t key ⟨c, hc, hm⟩
    rw [resolve_column]
    cases hfind : t.cols.find? (fun col => resolveMatch key col) with
    | some x => exact ⟨x, rfl⟩
    | none =>
      exact absurd (List.find?_eq_none.mp hfind c hc) (by simp [hm])

/-- C6 witness: on the username/name table the key "name" resolves
to some column. -/
theorem c6_witness : ∃ c, resolve_column userNameTable "name" = some c :=
  c6_fuzzy_resolution_first_match.2 userNameTable "name" ⟨"username", by decide, by decide⟩

/-- C8: the range-clip scenario returns ages 25, 120, 35, 0, 45 with
exactly one min violation of count 1 and one max violation of count
1; and for a single range rule the recorded violations are identical
whatever the action string is. -/
theorem c8_validate_ranges :
    (validate_ranges ageRangeTable
        [("age", { minv := some 0, maxv := some 120, action := "clip" })] =
      (⟨["age"], [[.num 25], [.num 120], [.num 35], [.num 0], [.num 45]]⟩,
       [⟨"age", "min", 0, 1⟩, ⟨"age", "max", 120, 1⟩])) ∧
    (∀ (t : Table) (col : String) (mn mx : Option Rat) (a b : String),
      (validate_ranges t [(col, { minv := mn, maxv := mx, action := a })]).2 =
      (validate_ranges t [(col, { minv := mn, maxv := mx, action := b })]).2) := by
  constructor
  · decide
  · intro t col mn mx a b
    unfold validate_ranges
    by_cases he : t.isEmptyDf
    · simp [he]
    · simp only [he, List.isEmpty_cons, Bool.false_or, Bool.or_false, if_false,
        List.foldl_cons, List.foldl_nil]
      unfold rangeStep
      cases hidx : t.cols.findIdx? (fun c => c == col) with
      | none => simp [hidx]
      | some i => simp [hidx]

/-- C2 (code bug): when some stage raises, run_async catches the
exception, marks the result payload failed, appends the message and
writes an error report; but the worker then stores that result and
unconditionally marks the job itself completed, leaving the job
error list empty — the job status is never set to failed on a stage
exception. -/
theorem c2_stage_exception_job_completed :
    ∀ (jid m : String) (pre : List String) (t1 t2 : Nat),
      lookupJob (process_job_async [(jid, newJob jid)] jid pre (some m) t1 t2) jid =
        some { job_id := jid, status := .completed, started_at := some t1,
               completed_at := some t2, progress := 1/10,
               result := some { status := "failed", errors := pre ++ [m],
                                error_report := true },
               errors := [] } := by
  intro jid m pre t1 t2
  simp only [process_job_async, update_job_status, update_job_progress, set_job_result,
    run_async, newJob, lookupJob, mapJob, List.find?, List.map_cons, List.map_nil,
    beq_self_eq_true, if_true, Option.map_some]
  norm_num [applyStatus]

/-- C3 counterexample: update_job_status has no terminal-state
guard — after a job reaches completed, a later call moves its status
back to pending. -/
theorem c3_counterexample :
    (lookupJob ((update_job_status [("j", newJob "j")] "j" .completed 5).1) "j").map
        Job.status = some .completed ∧
    (lookupJob ((update_job_status
        ((update_job_status [("j", newJob "j")] "j" .completed 5).1) "j" .pending 6).1)
        "j").map Job.status = some .pending := by
  decide

/-- C3 (amended): update_job_status applies whatever status is
requested unconditionally — terminal states are not sticky and do
not protect the job from later transitions — and every call setting
completed, failed or cancelled stamps the completion timestamp with
the call time.  One-directionality is a property of the call
sequences the worker issues, not of the store. -/
theorem c3_update_status_unconditional :
    ∀ (store : JobStore) (id : String) (st : JobStatus) (now : Nat) (j : Job),
      lookupJob store id = some j →
      (lookupJob (update_job_status store id st now).1 id).map Job.status = some st ∧
      (st.isTerminal = true →
        (lookupJob (update_job_status store id st now).1 id).map Job.completed_at =
          some (some now)) := by
  intro store id st now j hj
  unfold update_job_status
  rw [hj]
  simp only [lookupJob_mapJob, hj, Option.map_some]
  constructor
  · cases st <;> simp [applyStatus]
  · intro hterm
    cases st <;> simp_all [applyStatus, JobStatus.isTerminal]

/-- C3 witness: updating a fresh pending job to failed at tick 7
overwrites the status and stamps the completion time. -/
theorem c3_witness :
    (lookupJob (update_job_status [("j", newJob "j")] "j" .failed 7).1 "j").map
        Job.status = some .failed ∧
    (JobStatus.failed.isTerminal = true →
      (lookupJob (update_job_status [("j", newJob "j")] "j" .failed 7).1 "j").map
        Job.completed_at = some (some 7)) :=
  c3_update_status_unconditional [("j", newJob "j")] "j" .failed 7 (newJob "j") (by decide)

end Formata

namespace Formata

theorem keepFirstsBy_sublist {α β : Type} [DecidableEq β] (f : α → β) :
    ∀ (l : List α) (seen : List β), (keepFirstsBy f l seen).Sublist l := by
  intro l
  induction l with
  | nil => intro seen; simp [keepFirstsBy]
  | cons x xs ih =>
    intro seen
    unfold keepFirstsBy
    by_cases h : f x ∈ seen
    · rw [if_pos h]; exact (ih seen).cons x
    · rw [if_neg h]; exact (ih _).cons₂ x

theorem mem_keepFirstsBy_not_seen {α β : Type} [DecidableEq β] (f : α → β) :
    ∀ (l : List α) (seen : List β) (x : α), x ∈ keepFirstsBy f l seen → f x ∉ seen := by
  intro l
  induction l with
  | nil => intro seen x hx; simp [keepFirstsBy] at hx
  | cons y ys ih =>
    intro seen x hx
    unfold keepFirstsBy at hx
    by_cases h : f y ∈ seen
    · rw [if_pos h] at hx; exact ih seen x hx
    · rw [if_neg h] at hx
      rcases List.mem_cons.mp hx with rfl | hxr
      · exact h
      · intro hc
        exact ih _ x hxr (List.mem_cons_of_mem _ hc)

theorem keepFirstsBy_map_nodup {α β : Type} [DecidableEq β] (f : α → β) :
    ∀ (l : List α) (seen : List β), ((keepFirstsBy f l seen).map f).Nodup := by
  intro l
  induction l with
  | nil => intro seen; simp [keepFirstsBy]
  | cons y ys ih =>
    intro seen
    unfold keepFirstsBy
    by_cases h : f y ∈ seen
    · rw [if_pos h]; exact ih seen
    · rw [if_neg h]
      simp only [List.map_cons, List.nodup_cons]
      refine ⟨?_, ih _⟩
      intro hmem
      obtain ⟨x, hx, he⟩ := List.mem_map.mp hmem
      exact mem_keepFirstsBy_not_seen f ys _ x hx (he ▸ List.mem_cons_self _ _)

theorem keepFirstsBy_complete {α β : Type} [DecidableEq β] (f : α → β) :
    ∀ (l : List α) (seen : List β) (x : α), x ∈ l →
      f x ∈ seen ∨ ∃ y ∈ keepFirstsBy f l seen, f y = f x := by
  intro l
  induction l with
  | nil => intro seen x hx; simp at hx
  | cons z zs ih =>
    intro seen x hx
    unfold keepFirstsBy
    by_cases h : f z ∈ seen
    · rw [if_pos h]
      rcases List.mem_cons.mp hx with rfl | hxr
      · exact .inl h
      · exact ih seen x hxr
    · rw [if_neg h]
      rcases List.mem_cons.mp hx with rfl | hxr
      · exact .inr ⟨_, List.mem_cons_self _ _, rfl⟩
      · rcases ih (f z :: seen) x hxr with hs | ⟨y, hy, he⟩
        · rcases List.mem_cons.mp hs with heq | hsr
          · exact .inr ⟨_, List.mem_cons_self _ _, heq.symm⟩
          · exact .inl hsr
        · exact .inr ⟨y, List.mem_cons_of_mem _ hy, he⟩

/-- C4 counterexample: with one exact duplicate pair present the
fuzzy pass is skipped, so the case-variant rows "A" and "a" both
survive with the same normalized fingerprint — refuting the
fingerprint-uniqueness clause. -/
theorem c4_counterexample :
    remove_duplicates dupTestTable = ⟨["v"], [[.str "x"], [.str "A"], [.str "a"]]⟩ ∧
    ¬ ((remove_duplicates dupTestTable).rows.map fingerprint).Nodup := by
  decide

/-- C4 (amended): remove_duplicates never grows the table, keeps
survivors in original first-occurrence order (a sublist of the input
rows), keeps a representative of every fingerprint class, and on a
nonempty frame the survivors are pairwise distinct rows; the
normalized fingerprints of the survivors are pairwise distinct only
when the exact pass removed nothing (the only case in which the
fuzzy pass runs). -/
theorem c4_remove_duplicates :
    ∀ t : Table,
      (remove_duplicates t).cols = t.cols ∧
      (remove_duplicates t).rows.Sublist t.rows ∧
      (remove_duplicates t).rows.length ≤ t.rows.length ∧
      (∀ r ∈ t.rows, ∃ p ∈ (remove_duplicates t).rows, fingerprint p = fingerprint r) ∧
      (t.isEmptyDf = false →
        (remove_duplicates t).rows.Nodup ∧
        (t.rows.length - (keepFirstsBy id t.rows []).length = 0 →
          ((remove_duplicates t).rows.map fingerprint).Nodup)) := by
  intro t
  unfold remove_duplicates
  by_cases he : t.isEmptyDf
  · rw [if_pos he]
    exact ⟨rfl, List.Sublist.refl _, le_refl _, fun r hr => ⟨r, hr, rfl⟩,
      fun hf => absurd he (by simp [hf])⟩
  · rw [if_neg he]
    by_cases hz : t.rows.length - (keepFirstsBy id t.rows []).length = 0
    · rw [if_pos (by simpa using hz)]
      refine ⟨rfl, keepFirstsBy_sublist _ _ _, (keepFirstsBy_sublist _ _ _).length_le,
        ?_, fun _ => ⟨?_, fun _ => keepFirstsBy_map_nodup _ _ _⟩⟩
      · intro r hr
        rcases keepFirstsBy_complete fingerprint t.rows [] r hr with hs | ⟨y, hy, hey⟩
        · simp at hs
        · exact ⟨y, hy, hey⟩
      · exact (keepFirstsBy_map_nodup fingerprint t.rows []).of_map
    · rw [if_neg (by simpa using hz)]
      refine ⟨rfl, keepFirstsBy_sublist _ _ _, (keepFirstsBy_sublist _ _ _).length_le,
        ?_, fun _ => ⟨?_, fun hzz => absurd hzz hz⟩⟩
      · intro r hr
        rcases keepFirstsBy_complete id t.rows [] r hr with hs | ⟨y, hy, hey⟩
        · simp at hs
        · exact ⟨y, hy, congrArg fingerprint (show y = r from hey)⟩
      · have := keepFirstsBy_map_nodup id t.rows []
        simpa using this

/-- C4 witness: on the case-variant table the exact pass removes
nothing, so the fuzzy pass runs and the surviving fingerprints are
pairwise distinct. -/
theorem c4_witness :
    ((remove_duplicates fuzzyDupTable).rows.map fingerprint).Nodup :=
  ((c4_remove_duplicates fuzzyDupTable).2.2.2.2 (by decide)).2 (by decide)

end Formata

namespace Formata

theorem apply_text_search_cols (t : Table) (v : Option Cell) :
    (apply_text_search t v).cols = t.cols := by
  unfold apply_text_search
  dsimp only
  split <;> rfl

theorem textSearchStage_cols (t : Table) (fs : List (String × Rule)) :
    (textSearchStage t fs).cols = t.cols := by
  unfold textSearchStage
  cases lookupRule fs "_textSearch" with
  | none => rfl
  | some rule =>
    dsimp only
    split
    · exact apply_text_search_cols t rule.value
    · rfl

theorem apply_column_rule_cols (t : Table) (k : String) (r : Rule) :
    (apply_column_rule t k r).cols = t.cols := by
  unfold apply_column_rule
  cases columnRulePred t k r <;> rfl

theorem apply_column_rule_empty_rows (t : Table) (k : String) (r : Rule)
    (h : t.rows = []) : apply_column_rule t k r = t := by
  obtain ⟨cols, rows⟩ := t
  have h2 : rows = [] := h
  subst h2
  unfold apply_column_rule
  cases columnRulePred ⟨cols, []⟩ k r <;> rfl

theorem rows_eq_nil_of_emptyDf (u t : Table) (hcols : u.cols = t.cols)
    (ht : t.isEmptyDf = false) (hu : u.isEmptyDf = true) : u.rows = [] := by
  unfold Table.isEmptyDf at ht hu
  rw [Bool.or_eq_false_iff] at ht
  obtain ⟨hr, hc⟩ := ht
  rw [hcols, hc, Bool.or_false] at hu
  simpa using hu

theorem not_underscore_ne (k s : String) (hk : strStarts k "_" = false)
    (hs : strStarts s "_" = true) : (k == s) = false := by
  rcases eq_or_ne k s with rfl | h
  · rw [hk] at hs; cases hs
  · exact beq_eq_false_iff_ne.mpr h

/-- C1: apply_filters composes predicates conjunctively.  A global
text-search predicate followed by a column predicate filters exactly
as the two applied in sequence; likewise any two column predicates;
and on the three-row scenario the textSearch "John" plus age at
least 30 predicates leave exactly the Bob Johnson row. -/
theorem c1_conjunctive_filters :
    (∀ (t : Table) (r1 : Rule) (k : String) (r2 : Rule),
      strStarts k "_" = false →
      apply_filters t [("_textSearch", r1), (k, r2)] =
        apply_filters (apply_filters t [("_textSearch", r1)]) [(k, r2)]) ∧
    (∀ (t : Table) (k1 : String) (r1 : Rule) (k2 : String) (r2 : Rule),
      strStarts k1 "_" = false → strStarts k2 "_" = false →
      apply_filters t [(k1, r1), (k2, r2)] =
        apply_filters (apply_filters t [(k1, r1)]) [(k2, r2)]) ∧
    apply_filters filterTestTable
        [("_textSearch", { op := "contains", value := some (.str "John") }),
         ("age", { op := ">=", value := some (.num 30) })] =
      ⟨["name", "age"], [[.str "Bob Johnson", .num 35]]⟩ := by
  refine ⟨?_, ?_, by decide⟩
  · intro t r1 k r2 hk
    have hk1 := not_underscore_ne k "_textSearch" hk (by decide)
    have hk2 := not_underscore_ne k "_dateRange" hk (by decide)
    have hk3 := not_underscore_ne k "_numericRange" hk (by decide)
    have hs1 : strStarts "_textSearch" "_" = true := by decide
    by_cases he : t.isEmptyDf
    · simp [apply_filters, he]
    · have ets : textSearchStage t [("_textSearch", r1), (k, r2)] =
          textSearchStage t [("_textSearch", r1)] := by
        simp [textSearchStage, lookupRule, List.find?]
      have edr : ∀ u : Table, dateRangeStage u [("_textSearch", r1), (k, r2)] = u := by
        intro u; simp [dateRangeStage, lookupRule, List.find?, hk2]
      have enr : ∀ u : Table, numericRangeStage u [("_textSearch", r1), (k, r2)] = u := by
        intro u; simp [numericRangeStage, lookupRule, List.find?, hk3]
      have edr1 : ∀ u : Table, dateRangeStage u [("_textSearch", r1)] = u := by
        intro u; simp [dateRangeStage, lookupRule, List.find?]
      have enr1 : ∀ u : Table, numericRangeStage u [("_textSearch", r1)] = u := by
        intro u; simp [numericRangeStage, lookupRule, List.find?]
      have ecs : ∀ u : Table, columnStage u [("_textSearch", r1), (k, r2)] =
          apply_column_rule u k r2 := by
        intro u; simp [columnStage, hk, hs1]
      have ecs1 : ∀ u : Table, columnStage u [("_textSearch", r1)] = u := by
        intro u; simp [columnStage, hs1]
      have ets2 : ∀ u : Table, textSearchStage u [(k, r2)] = u := by
        intro u; simp [textSearchStage, lookupRule, List.find?, hk1]
      have edr2 : ∀ u : Table, dateRangeStage u [(k, r2)] = u := by
        intro u; simp [dateRangeStage, lookupRule, List.find?, hk2]
      have enr2 : ∀ u : Table, numericRangeStage u [(k, r2)] = u := by
        intro u; simp [numericRangeStage, lookupRule, List.find?, hk3]
      have ecs2 : ∀ u : Table, columnStage u [(k, r2)] = apply_column_rule u k r2 := by
        intro u; simp [columnStage, hk]
      have hlhs : apply_filters t [("_textSearch", r1), (k, r2)] =
          apply_column_rule (textSearchStage t [("_textSearch", r1)]) k r2 := by
        unfold apply_filters
        rw [if_neg (by simp [he])]
        rw [ets, edr, enr, ecs]
      have hinner : apply_filters t [("_textSearch", r1)] =
          textSearchStage t [("_textSearch", r1)] := by
        unfold apply_filters
        rw [if_neg (by simp [he])]
        rw [edr1, enr1, ecs1]
      rw [hlhs, hinner]
      by_cases hu : (textSearchStage t [("_textSearch", r1)]).isEmptyDf
      · unfold apply_filters
        rw [if_pos (by simp [hu])]
        exact apply_column_rule_empty_rows _ k r2
          (rows_eq_nil_of_emptyDf _ t (textSearchStage_cols t _) (by simpa using he) hu)
      · unfold apply_filters
        rw [if_neg (by simp [hu])]
        rw [ets2, edr2, enr2, ecs2]
  · intro t k1 r1 k2 r2 hka hkb
    have ha1 := not_underscore_ne k1 "_textSearch" hka (by decide)
    have ha2 := not_underscore_ne k1 "_dateRange" hka (by decide)
    have ha3 := not_underscore_ne k1 "_numericRange" hka (by decide)
    have hb1 := not_underscore_ne k2 "_textSearch" hkb (by decide)
    have hb2 := not_underscore_ne k2 "_dateRange" hkb (by decide)
    have hb3 := not_underscore_ne k2 "_numericRange" hkb (by decide)
    by_cases he : t.isEmptyDf
    · simp [apply_filters, he]
    · have ets : ∀ u : Table, textSearchStage u [(k1, r1), (k2, r2)] = u := by
        intro u; simp [textSearchStage, lookupRule, List.find?, ha1, hb1]
      have edr : ∀ u : Table, dateRangeStage u [(k1, r1), (k2, r2)] = u := by
        intro u; simp [dateRangeStage, lookupRule, List.find?, ha2, hb2]
      have enr : ∀ u : Table, numericRangeStage u [(k1, r1), (k2, r2)] = u := by
        intro u; simp [numericRangeStage, lookupRule, List.find?, ha3, hb3]
      have ecs : ∀ u : Table, columnStage u [(k1, r1), (k2, r2)] =
          apply_column_rule (apply_column_rule u k1 r1) k2 r2 := by
        intro u; simp [columnStage, hka, hkb]
      have ets1 : ∀ u : Table, textSearchStage u [(k1, r1)] = u := by
        intro u; simp [textSearchStage, lookupRule, List.find?, ha1]
      have edr1 : ∀ u : Table, dateRangeStage u [(k1, r1)] = u := by
        intro u; simp [dateRangeStage, lookupRule, List.find?, ha2]
      have enr1 : ∀ u : Table, numericRangeStage u [(k1, r1)] = u := by
        intro u; simp [numericRangeStage, lookupRule, List.find?, ha3]
      have ecs1 : ∀ u : Table, columnStage u [(k1, r1)] = apply_column_rule u k1 r1 := by
        intro u; simp [columnStage, hka]
      have ets2 : ∀ u : Table, textSearchStage u [(k2, r2)] = u := by
        intro u; simp [textSearchStage, lookupRule, List.find?, hb1]
      have edr2 : ∀ u : Table, dateRangeStage u [(k2, r2)] = u := by
        intro u; simp [dateRangeStage, lookupRule, List.find?, hb2]
      have enr2 : ∀ u : Table, numericRangeStage u [(k2, r2)] = u := by
        intro u; simp [numericRangeStage, lookupRule, List.find?, hb3]
      have ecs2 : ∀ u : Table, columnStage u [(k2, r2)] = apply_column_rule u k2 r2 := by
        intro u; simp [columnStage, hkb]
      have hlhs : apply_filters t [(k1, r1), (k2, r2)] =
          apply_column_rule (apply_column_rule t k1 r1) k2 r2 := by
        unfold apply_filters
        rw [if_neg (by simp [he])]
        rw [ets, edr, enr, ecs]
      have hinner : apply_filters t [(k1, r1)] = apply_column_rule t k1 r1 := by
        unfold apply_filters
        rw [if_neg (by simp [he])]
        rw [ets1, edr1, enr1, ecs1]
      rw [hlhs, hinner]
      by_cases hv : (apply_column_rule t k1 r1).isEmptyDf
      · unfold apply_filters
        rw [if_pos (by simp [hv])]
        exact apply_column_rule_empty_rows _ k2 r2
          (rows_eq_nil_of_emptyDf _ t (apply_column_rule_cols t k1 r1) (by simpa using he) hv)
      · unfold apply_filters
        rw [if_neg (by simp [hv])]
        rw [ets2, edr2, enr2, ecs2]

/-- C1 witness: the composition equality instantiated on the
concrete three-row table with the textSearch and age rules. -/
theorem c1_witness :
    apply_filters filterTestTable
        [("_textSearch", { op := "contains", value := some (.str "John") }),
         ("age", { op := ">=", value := some (.num 30) })] =
      apply_filters
        (apply_filters filterTestTable
          [("_textSearch", { op := "contains", value := some (.str "John") })])
        [("age", { op := ">=", value := some (.num 30) })] :=
  c1_conjunctive_filters.1 filterTestTable
    { op := "contains", value := some (.str "John") } "age"
    { op := ">=", value := some (.num 30) } (by decide)

end Formata

namespace Formata

/-- C9: enforcing int on a column of strings that are either
integer-valued numeric strings or unconvertible leaves no error
escaping to the caller, records no column error, and rewrites the
column cell-wise: convertible values become their integer numeric
value, unconvertible cells become null. -/
theorem c9_enforce_int :
    ∀ (t : Table) (name : String) (i : Nat),
      t.cols.findIdx? (fun c => c == name) = some i →
      (∀ r ∈ t.rows, (cellAt r i).isStr = true) →
      (∀ r ∈ t.rows, ∀ q : Rat, pdToNumeric (cellAt r i) = some q → q.den = 1) →
      (enforce_types t [(name, "int")] false).2.errors = [] ∧
      (enforce_types t [(name, "int")] false).1.cols = t.cols ∧
      (enforce_types t [(name, "int")] false).1.rows =
        t.rows.map (fun r => r.set i
          (match pdToNumeric (cellAt r i) with
           | some q => Cell.num q
           | none => Cell.null)) := by
  intro t name i hidx hstr hint
  by_cases he : t.isEmptyDf
  · have hcols : t.cols ≠ [] := by
      intro hc
      rw [hc] at hidx
      simp [List.findIdx?] at hidx
    have hrows : t.rows = [] := by
      unfold Table.isEmptyDf at he
      rw [Bool.or_eq_true] at he
      rcases he with h | h
      · exact List.isEmpty_iff.mp h
      · exact absurd (List.isEmpty_iff.mp h) hcols
    simp [enforce_types, he, hrows]
  · have hany : ((t.getCol i).map pdToNumeric).any (fun o =>
        match o with
        | some q => q.den != 1
        | none => false) = false := by
      rw [List.any_eq_false]
      intro o ho
      rw [List.mem_map] at ho
      obtain ⟨c, hc, rfl⟩ := ho
      rw [Table.getCol, List.mem_map] at hc
      obtain ⟨r, hr, rfl⟩ := hc
      cases hq : pdToNumeric (cellAt r i) with
      | none => simp
      | some q => simp [hint r hr q hq]
    simp only [enforce_types, he, Bool.false_eq_true, if_false, Bool.if_false_left,
      List.isEmpty_cons, List.foldl_cons, List.foldl_nil]
    unfold enforceCol
    rw [hidx]
    simp [hany, setColumn]
    unfold Table.getCol
    rw [List.map_map, List.zipWith_map_right, List.zipWith_same]
    rfl

/-- C9 witness: enforcing int over the column ["25", "abc", "30"]
gives 25, null, 30 with no recorded error. -/
theorem c9_witness :
    (enforce_types intStringsTable [("age", "int")] false).2.errors = [] ∧
    (enforce_types intStringsTable [("age", "int")] false).1.rows =
      [[Cell.num 25], [Cell.null], [Cell.num 30]] := by
  have h := c9_enforce_int intStringsTable "age" 0 (by decide) (by decide) (by decide)
  exact ⟨h.1, by rw [h.2.2]; decide⟩

end Formata

namespace Formata

/-- C10: for a selected column passing the skip checks (at least 10
parseable values, more than 2 distinct values, nonzero IQR),
remove_outliers keeps exactly the rows whose value in that column is
numeric-parseable and inside the IQR fence — null and non-parseable
cells fail the keep-mask and their rows are removed, and every
surviving row carries a numeric value within the bounds. -/
theorem c10_remove_outliers :
    ∀ (t : Table) (col : String) (i : Nat) (q1 q3 : Rat),
      t.cols.findIdx? (fun c => c == col) = some i →
      10 ≤ ((t.getCol i).filterMap pdToNumeric).length →
      2 < nuniq ((t.getCol i).filterMap pdToNumeric) →
      seriesQuantile ((t.getCol i).filterMap pdToNumeric) (1/4) = some q1 →
      seriesQuantile ((t.getCol i).filterMap pdToNumeric) (3/4) = some q3 →
      q3 - q1 ≠ 0 →
      (remove_outliers t [col]).rows = t.rows.filter (fun r =>
          match pdToNumeric (cellAt r i) with
          | some v => q1 - 3/2 * (q3 - q1) ≤ v && v ≤ q3 + 3/2 * (q3 - q1)
          | none => false) ∧
      ∀ r ∈ (remove_outliers t [col]).rows, ∃ v, pdToNumeric (cellAt r i) = some v ∧
        q1 - 3/2 * (q3 - q1) ≤ v ∧ v ≤ q3 + 3/2 * (q3 - q1) := by
  intro t col i q1 q3 hidx hlen hnu hq1 hq3 hiqr
  have hrowsne : t.rows ≠ [] := by
    intro hr
    rw [Table.getCol, hr] at hlen
    simp at hlen
  have hcolsne : t.cols ≠ [] := by
    intro hc; rw [hc] at hidx; simp [List.findIdx?] at hidx
  have he : t.isEmptyDf = false := by
    unfold Table.isEmptyDf
    simp [hrowsne, hcolsne]
  have hmain : (remove_outliers t [col]).rows = t.rows.filter (fun r =>
      match pdToNumeric (cellAt r i) with
      | some v => q1 - 3/2 * (q3 - q1) ≤ v && v ≤ q3 + 3/2 * (q3 - q1)
      | none => false) := by
    unfold remove_outliers
    rw [he]
    simp only [Bool.false_eq_true, if_false, List.isEmpty_cons, List.foldl_cons,
      List.foldl_nil]
    unfold outlierStep
    rw [hidx]
    dsimp only
    have hcond : (((t.getCol i).filterMap pdToNumeric).length < 10 ||
        nuniq ((t.getCol i).filterMap pdToNumeric) ≤ 2) = false := by
      simp only [Bool.or_eq_false_iff, decide_eq_false_iff_not]
      omega
    rw [hcond]
    simp only [Bool.false_eq_true, if_false]
    rw [hq1, hq3]
    have hbe : ((q3 - q1) == 0) = false := beq_eq_false_iff_ne.mpr hiqr
    dsimp only
    rw [hbe]
    rfl
  refine ⟨hmain, ?_⟩
  intro r hr
  rw [hmain] at hr
  rw [List.mem_filter] at hr
  obtain ⟨hmem, hp⟩ := hr
  cases hv : pdToNumeric (cellAt r i) with
  | none => rw [hv] at hp; cases hp
  | some v =>
    rw [hv] at hp
    rw [Bool.and_eq_true, decide_eq_true_iff, decide_eq_true_iff] at hp
    exact ⟨v, rfl, hp.1, hp.2⟩

/-- C10 witness: on the twelve-row table the fence is computed from
values 1..10, the null and the string row are dropped, and every
survivor carries a numeric value inside the fence. -/
theorem c10_witness :
    (remove_outliers outlierTable ["age"]).rows = outlierTable.rows.filter (fun r =>
        match pdToNumeric (cellAt r 0) with
        | some v => (13/4 : Rat) - 3/2 * (31/4 - 13/4) ≤ v &&
            v ≤ 31/4 + 3/2 * (31/4 - 13/4)
        | none => false) := by
  have e : (outlierTable.getCol 0).filterMap pdToNumeric =
      [1, 2, 3, 4, 5, 6, 7, 8, 9, 10] := by decide
  exact (c10_remove_outliers outlierTable "age" 0 (13/4) (31/4) (by decide)
    (by rw [e]; decide)
    (by rw [e]; decide)
    (by rw [e]; norm_num [seriesQuantile, quantileSorted, List.insertionSort,
      List.orderedInsert, Rat.floor, Int.toNat])
    (by rw [e]; norm_num [seriesQuantile, quantileSorted, List.insertionSort,
      List.orderedInsert, Rat.floor, Int.toNat])
    (by norm_num)).1

end Formata

namespace Formata

theorem roundHE_bounds (y : Rat) (B : Int) (h0 : 0 ≤ y) (h1 : y ≤ (B : Rat)) :
    0 ≤ roundHE y ∧ roundHE y ≤ B := by
  have hfl : (Rat.floor y : Rat) ≤ y := Rat.le_floor.mp le_rfl
  have hf0 : 0 ≤ Rat.floor y := Rat.le_floor.mpr (by exact_mod_cast h0)
  have hfB : Rat.floor y ≤ B := by
    have h2 : (Rat.floor y : Rat) ≤ (B : Rat) := le_trans hfl h1
    exact_mod_cast h2
  constructor
  · unfold roundHE
    dsimp only
    split_ifs <;> omega
  · unfold roundHE
    dsimp only
    split_ifs with hA hB2 hC
    · exact hfB
    · have h2 : (Rat.floor y : Rat) + 1/2 < y := by linarith
      have h3 : ((Rat.floor y + 1 : Int) : Rat) < (B : Rat) + 1 := by push_cast; linarith
      have h4 : Rat.floor y + 1 < B + 1 := by exact_mod_cast h3
      omega
    · exact hfB
    · have hge : 1/2 ≤ y - (Rat.floor y : Rat) := not_lt.mp hA
      have h3 : ((Rat.floor y + 1 : Int) : Rat) ≤ (B : Rat) + 1/2 := by push_cast; linarith
      have h4 : ((Rat.floor y + 1 : Int) : Rat) < (B : Rat) + 1 := lt_of_le_of_lt h3 (by linarith)
      have h5 : Rat.floor y + 1 < B + 1 := by exact_mod_cast h4
      omega

theorem round2_bounds (x : Rat) (h0 : 0 ≤ x) (h1 : x ≤ 100) :
    0 ≤ round2 x ∧ round2 x ≤ 100 := by
  have h := roundHE_bounds (x * 100) 10000 (by nlinarith) (by push_cast; nlinarith)
  have hc0 : (0 : Rat) ≤ ((roundHE (x * 100) : Int) : Rat) := by exact_mod_cast h.1
  have hc1 : ((roundHE (x * 100) : Int) : Rat) ≤ 10000 := by exact_mod_cast h.2
  unfold round2
  constructor
  · positivity
  · linarith

theorem clampScore_bounds (x : Rat) : 0 ≤ max 0 (min 100 x) ∧ max 0 (min 100 x) ≤ 100 :=
  ⟨le_max_left _ _, max_le (by norm_num) (min_le_left _ _)⟩

theorem completeness_score_bounds (t : Table) (mrep : Option (List (String × Rat))) :
    0 ≤ calculate_completeness_score t mrep ∧ calculate_completeness_score t mrep ≤ 100 := by
  unfold calculate_completeness_score
  dsimp only
  split_ifs
  · norm_num
  · exact clampScore_bounds _

theorem validity_score_bounds (t : Table) (schema : List (String × FieldRules))
    (trep : Option EnforceReport) (verrs : List String) :
    0 ≤ calculate_validity_score t schema trep verrs ∧
    calculate_validity_score t schema trep verrs ≤ 100 := by
  unfold calculate_validity_score
  exact clampScore_bounds _

theorem consistency_score_bounds (t : Table) :
    0 ≤ calculate_consistency_score t ∧ calculate_consistency_score t ≤ 100 := by
  unfold calculate_consistency_score
  by_cases h : (t.rows.length == 0) = true
  · rw [if_pos h]; norm_num
  · rw [if_neg h]; exact clampScore_bounds _

theorem accuracy_score_bounds (t : Table) :
    0 ≤ calculate_accuracy_score t ∧ calculate_accuracy_score t ≤ 100 := by
  unfold calculate_accuracy_score
  by_cases h : (t.rows.length == 0) = true
  · rw [if_pos h]; norm_num
  · rw [if_neg h]; exact clampScore_bounds _

/-- C7: every reported sub-score and the overall score of
calculate_data_quality_score lie in the 0 to 100 range; on a
nonempty frame the grade is computed from the exact weighted
30/30/20/20 combination of the four sub-scores, the reported scores
are that combination and the sub-scores rounded to two decimals; and
the grade mapping is the strict non-overlapping threshold function
(at least 90 A, at least 80 B, at least 70 C, at least 60 D,
otherwise F). -/
theorem c7_quality_score :
    (∀ (t : Table) (schema : List (String × FieldRules))
        (mrep : Option (List (String × Rat))) (trep : Option EnforceReport)
        (verrs : List String),
      (0 ≤ (calculate_data_quality_score t schema mrep trep verrs).completeness_score ∧
        (calculate_data_quality_score t schema mrep trep verrs).completeness_score ≤ 100) ∧
      (0 ≤ (calculate_data_quality_score t schema mrep trep verrs).validity_score ∧
        (calculate_data_quality_score t schema mrep trep verrs).validity_score ≤ 100) ∧
      (0 ≤ (calculate_data_quality_score t schema mrep trep verrs).consistency_score ∧
        (calculate_data_quality_score t schema mrep trep verrs).consistency_score ≤ 100) ∧
      (0 ≤ (calculate_data_quality_score t schema mrep trep verrs).accuracy_score ∧
        (calculate_data_quality_score t schema mrep trep verrs).accuracy_score ≤ 100) ∧
      (0 ≤ (calculate_data_quality_score t schema mrep trep verrs).overall_score ∧
        (calculate_data_quality_score t schema mrep trep verrs).overall_score ≤ 100) ∧
      (t.isEmptyDf = false →
        (calculate_data_quality_score t schema mrep trep verrs).grade =
          assign_quality_grade
            (calculate_completeness_score t mrep * (3/10) +
             calculate_validity_score t schema trep verrs * (3/10) +
             calculate_consistency_score t * (1/5) +
             calculate_accuracy_score t * (1/5)) ∧
        (calculate_data_quality_score t schema mrep trep verrs).overall_score =
          round2
            (calculate_completeness_score t mrep * (3/10) +
             calculate_validity_score t schema trep verrs * (3/10) +
             calculate_consistency_score t * (1/5) +
             calculate_accuracy_score t * (1/5)) ∧
        (calculate_data_quality_score t schema mrep trep verrs).completeness_score =
          round2 (calculate_completeness_score t mrep) ∧
        (calculate_data_quality_score t schema mrep trep verrs).validity_score =
          round2 (calculate_validity_score t schema trep verrs) ∧
        (calculate_data_quality_score t schema mrep trep verrs).consistency_score =
          round2 (calculate_consistency_score t) ∧
        (calculate_data_quality_score t schema mrep trep verrs).accuracy_score =
          round2 (calculate_accuracy_score t))) ∧
    (∀ s : Rat,
      (90 ≤ s → assign_quality_grade s = "A") ∧
      (80 ≤ s → s < 90 → assign_quality_grade s = "B") ∧
      (70 ≤ s → s < 80 → assign_quality_grade s = "C") ∧
      (60 ≤ s → s < 70 → assign_quality_grade s = "D") ∧
      (s < 60 → assign_quality_grade s = "F")) := by
  constructor
  · intro t schema mrep trep verrs
    by_cases he : t.isEmptyDf
    · unfold calculate_data_quality_score
      rw [if_pos he]
      refine ⟨by norm_num, by norm_num, by norm_num, by norm_num, by norm_num,
        fun hf => absurd he (by simp [hf])⟩
    · unfold calculate_data_quality_score
      rw [if_neg he]
      dsimp only
      have hc := completeness_score_bounds t mrep
      have hv := validity_score_bounds t schema trep verrs
      have hcons := consistency_score_bounds t
      have hacc := accuracy_score_bounds t
      refine ⟨round2_bounds _ hc.1 hc.2, round2_bounds _ hv.1 hv.2,
        round2_bounds _ hcons.1 hcons.2, round2_bounds _ hacc.1 hacc.2,
        round2_bounds _ (by linarith [hc.1, hv.1, hcons.1, hacc.1])
          (by linarith [hc.2, hv.2, hcons.2, hacc.2]),
        fun _ => ⟨rfl, rfl, rfl, rfl, rfl, rfl⟩⟩
  · intro s
    refine ⟨fun ha => ?_, fun hb1 hb2 => ?_, fun hc1 hc2 => ?_, fun hd1 hd2 => ?_,
      fun hf => ?_⟩ <;>
      unfold assign_quality_grade <;> split_ifs <;> first | rfl | (exfalso; linarith)

/-- C7 witness: the grade equation instantiated on the one-cell
table. -/
theorem c7_witness :
    (calculate_data_quality_score qualityTable [] none none []).grade =
      assign_quality_grade
        (calculate_completeness_score qualityTable none * (3/10) +
         calculate_validity_score qualityTable [] none [] * (3/10) +
         calculate_consistency_score qualityTable * (1/5) +
         calculate_accuracy_score qualityTable * (1/5)) :=
  ((c7_quality_score.1 qualityTable [] none none []).2.2.2.2.2 (by decide)).1

end Formata

namespace Formata

theorem toLower_idem (c : Char) : Char.toLower (Char.toLower c) = Char.toLower c := by
  by_cases h : c.toNat ≥ 65 ∧ c.toNat ≤ 90
  · have hc : c = Char.ofNat c.toNat := (Char.ofNat_toNat c).symm
    obtain ⟨h1, h2⟩ := h
    set n := c.toNat with hn
    interval_cases n <;> rw [hc] <;> decide
  · have e : Char.toLower c = c := by
      unfold Char.toLower
      exact if_neg h
    rw [e, e]

theorem word_not_ws (c : Char) (hw : isWordChar c = true) : isWsChar c = false := by
  by_contra h
  rw [Bool.not_eq_false] at h
  unfold isWsChar at h
  rw [Bool.or_eq_true, Bool.or_eq_true, Bool.or_eq_true] at h
  rcases h with ((h1 | h1) | h1) | h1 <;>
    rw [eq_of_beq h1] at hw <;> exact absurd hw (by decide)

theorem listMapIdOf {α : Type} (f : α → α) :
    ∀ l : List α, (∀ c ∈ l, f c = c) → l.map f = l := by
  intro l
  induction l with
  | nil => intro _; rfl
  | cons c r ih =>
    intro h
    rw [List.map_cons, h c (List.mem_cons_self _ _), ih (fun x hx => h x (List.mem_cons_of_mem _ hx))]

theorem dropWsLeft_eq_self (l : List Char) (h : ∀ c ∈ l.head?, isWsChar c = false) :
    dropWsLeft l = l := by
  cases l with
  | nil => rfl
  | cons c r =>
    unfold dropWsLeft
    rw [if_neg (by simp [h c (by simp)])]

theorem strTrim_eq_self (s : String) (h : ∀ c ∈ s.toList, isWsChar c = false) :
    strTrim s = s := by
  unfold strTrim
  rw [dropWsLeft_eq_self s.toList.reverse (by
    intro c hc
    exact h c (List.mem_reverse.mp (List.mem_of_mem_head? hc)))]
  rw [List.reverse_reverse]
  rw [dropWsLeft_eq_self s.toList (by
    intro c hc
    exact h c (List.mem_of_mem_head? hc))]
  rfl

theorem strLower_eq_self (s : String) (h : ∀ c ∈ s.toList, Char.toLower c = c) :
    strLower s = s := by
  unfold strLower
  rw [listMapIdOf _ _ h]
  rfl

theorem collapseU_eq_self (l : List Char)
    (h : l.Chain' (fun a b => ¬(a = '_' ∧ b = '_'))) : collapseU l = l := by
  induction l with
  | nil => rfl
  | cons c r ih =>
    cases r with
    | nil => rfl
    | cons d r2 =>
      rw [List.chain'_cons] at h
      unfold collapseU
      rw [if_neg (by
        rw [Bool.and_eq_true]
        intro hcd
        exact h.1 ⟨eq_of_beq hcd.1, eq_of_beq hcd.2⟩)]
      rw [ih h.2]

theorem dropU_eq_self (l : List Char) (h : l.head? ≠ some '_') :
    l.dropWhile (fun c => c == '_') = l := by
  cases l with
  | nil => rfl
  | cons c r =>
    rw [List.dropWhile_cons]
    rw [if_neg (by
      intro hb
      exact h (by rw [eq_of_beq hb]; rfl))]

theorem stripU_eq_self (l : List Char) (h1 : l.head? ≠ some '_')
    (h2 : l.getLast? ≠ some '_') : stripU l = l := by
  unfold stripU
  rw [dropU_eq_self l h1]
  rw [dropU_eq_self l.reverse (by rwa [List.head?_reverse])]
  rw [List.reverse_reverse]

theorem clean_name_eq_self (s : String) (h : CleanName s) : clean_name s = s := by
  obtain ⟨hne, hchars, hchain, hhead, hlast⟩ := h
  unfold clean_name
  rw [strTrim_eq_self s (fun c hc => word_not_ws c (hchars c hc).1)]
  rw [strLower_eq_self s (fun c hc => (hchars c hc).2)]
  rw [listMapIdOf _ s.toList (fun c hc => by rw [if_pos (hchars c hc).1])]
  rw [collapseU_eq_self s.toList hchain]
  rw [stripU_eq_self s.toList hhead hlast]
  rfl

end Formata

namespace Formata

theorem head?_collapseU : ∀ (r : List Char) (d : Char), (collapseU (d :: r)).head? = some d := by
  intro r
  induction r with
  | nil => intro d; rfl
  | cons e r2 ih =>
    intro d
    unfold collapseU
    by_cases h : (d == '_' && e == '_') = true
    · rw [if_pos h, ih e]
      rw [Bool.and_eq_true] at h
      rw [eq_of_beq h.1, eq_of_beq h.2]
    · rw [if_neg h]; rfl

theorem chain'_collapseU :
    ∀ l : List Char, (collapseU l).Chain' (fun a b => ¬(a = '_' ∧ b = '_')) := by
  intro l
  induction l with
  | nil => exact List.chain'_nil
  | cons c r ih =>
    cases r with
    | nil => exact List.chain'_singleton c
    | cons d r2 =>
      unfold collapseU
      by_cases h : (c == '_' && d == '_') = true
      · rw [if_pos h]; exact ih
      · rw [if_neg h]
        rw [List.chain'_cons']
        refine ⟨?_, ih⟩
        intro y hy
        rw [head?_collapseU r2 d] at hy
        rw [Option.mem_def] at hy
        obtain rfl := (Option.some.inj hy).symm
        intro hcd
        exact h (by rw [hcd.1, hcd.2]; rfl)

theorem collapseU_sublist : ∀ l : List Char, (collapseU l).Sublist l := by
  intro l
  induction l with
  | nil => exact List.Sublist.refl _
  | cons c r ih =>
    cases r with
    | nil => exact List.Sublist.refl _
    | cons d r2 =>
      unfold collapseU
      by_cases h : (c == '_' && d == '_') = true
      · rw [if_pos h]; exact ih.cons c
      · rw [if_neg h]; exact ih.cons₂ c

theorem dropWhile_isSuffix (p : Char → Bool) : ∀ l : List Char, (l.dropWhile p).IsSuffix l := by
  intro l
  induction l with
  | nil => exact List.suffix_refl _
  | cons c r ih =>
    rw [List.dropWhile_cons]
    by_cases h : p c = true
    · rw [if_pos h]
      exact ih.trans (List.suffix_cons c r)
    · rw [if_neg h]

theorem head?_dropWhile (p : Char → Bool) :
    ∀ (l : List Char) (x : Char), (l.dropWhile p).head? = some x → p x = false := by
  intro l
  induction l with
  | nil => intro x hx; cases hx
  | cons c r ih =>
    intro x hx
    rw [List.dropWhile_cons] at hx
    by_cases h : p c = true
    · rw [if_pos h] at hx; exact ih x hx
    · rw [if_neg h] at hx
      obtain rfl := Option.some.inj hx
      exact Bool.eq_false_iff.mpr h

theorem stripU_isInfix (l : List Char) : (stripU l).IsInfix l := by
  unfold stripU
  obtain ⟨pre, hpre⟩ := dropWhile_isSuffix (fun c => c == '_') (l.dropWhile (fun c => c == '_')).reverse
  have hout : ((l.dropWhile (fun c => c == '_')).reverse.dropWhile (fun c => c == '_')).reverse.IsPrefix
      (l.dropWhile (fun c => c == '_')) := by
    refine ⟨pre.reverse, ?_⟩
    have h2 := congrArg List.reverse hpre
    rw [List.reverse_append, List.reverse_reverse] at h2
    exact h2
  exact hout.isInfix.trans (dropWhile_isSuffix _ l).isInfix

theorem getLast?_of_suffix {b a : List Char} (h : b.IsSuffix a) (hne : b ≠ []) :
    a.getLast? = b.getLast? := by
  obtain ⟨pre, rfl⟩ := h
  rw [List.getLast?_append]
  cases hb : b.getLast? with
  | none => exact absurd (List.getLast?_eq_none_iff.mp hb) hne
  | some y => rfl

theorem stripU_head (l : List Char) : (stripU l).head? ≠ some '_' := by
  unfold stripU
  intro hc
  rw [List.head?_reverse] at hc
  have hq := dropWhile_isSuffix (fun c => c == '_') (l.dropWhile (fun c => c == '_')).reverse
  set q := (l.dropWhile (fun c => c == '_')).reverse.dropWhile (fun c => c == '_') with hqdef
  have hqne : q ≠ [] := by
    intro h0
    rw [h0] at hc
    cases hc
  have h2 : ((l.dropWhile (fun c => c == '_')).reverse).getLast? = q.getLast? :=
    getLast?_of_suffix hq hqne
  rw [List.getLast?_reverse] at h2
  rw [hc] at h2
  have h3 := head?_dropWhile (fun c => c == '_') l '_' h2
  simp at h3

theorem stripU_last (l : List Char) : (stripU l).getLast? ≠ some '_' := by
  unfold stripU
  intro hc
  rw [List.getLast?_reverse] at hc
  have h3 := head?_dropWhile (fun c => c == '_') _ '_' hc
  simp at h3

end Formata

namespace Formata

theorem natReprAux_props : ∀ (fuel n : Nat), ∀ c ∈ natReprAux fuel n,
    isWordChar c = true ∧ Char.toLower c = c ∧ ¬ c = '_' := by
  intro fuel
  induction fuel with
  | zero => intro n c hc; cases hc
  | succ f ih =>
    intro n c hc
    unfold natReprAux at hc
    by_cases h : n < 10
    · rw [if_pos h] at hc
      have hm : n % 10 < 10 := Nat.mod_lt _ (by norm_num)
      set m := n % 10 with hmdef
      rw [List.mem_singleton] at hc
      subst hc
      interval_cases m <;> exact ⟨by decide, by decide, by decide⟩
    · rw [if_neg h] at hc
      rw [List.mem_append] at hc
      rcases hc with hc | hc
      · exact ih _ c hc
      · have hm : n % 10 < 10 := Nat.mod_lt _ (by norm_num)
        set m := n % 10 with hmdef
        rw [List.mem_singleton] at hc
        subst hc
        interval_cases m <;> exact ⟨by decide, by decide, by decide⟩

theorem natReprAux_ne_nil (f n : Nat) : natReprAux (f + 1) n ≠ [] := by
  unfold natReprAux
  by_cases h : n < 10
  · rw [if_pos h]; simp
  · rw [if_neg h]; simp

theorem cleanName_clean (col : String) (hne : clean_name col ≠ "") :
    CleanName (clean_name col) := by
  refine ⟨?_, ?_, ?_, ?_, ?_⟩
  · intro h0
    apply hne
    show String.mk (stripU (collapseU ((strLower (strTrim col)).toList.map
      (fun c => if isWordChar c then c else '_')))) = ""
    have h1 : (clean_name col).toList =
        stripU (collapseU ((strLower (strTrim col)).toList.map
          (fun c => if isWordChar c then c else '_'))) := rfl
    rw [h1] at h0
    rw [h0]
  · intro c hc
    have h1 : c ∈ collapseU ((strLower (strTrim col)).toList.map
        (fun c => if isWordChar c then c else '_')) :=
      (stripU_isInfix _).sublist.subset hc
    have h2 : c ∈ (strLower (strTrim col)).toList.map
        (fun c => if isWordChar c then c else '_') :=
      (collapseU_sublist _).subset h1
    rw [List.mem_map] at h2
    obtain ⟨y, hy, rfl⟩ := h2
    have hy2 : y ∈ (strTrim col).toList.map Char.toLower := hy
    rw [List.mem_map] at hy2
    obtain ⟨z, hz, rfl⟩ := hy2
    by_cases hw : isWordChar (Char.toLower z) = true
    · rw [if_pos hw]
      exact ⟨hw, toLower_idem z⟩
    · rw [if_neg hw]
      exact ⟨by decide, by decide⟩
  · exact List.Chain'.infix (chain'_collapseU _) (stripU_isInfix _)
  · exact stripU_head _
  · exact stripU_last _

theorem chain'_of_all_ne (l : List Char) (h : ∀ c ∈ l, ¬ c = '_') :
    l.Chain' (fun a b => ¬(a = '_' ∧ b = '_')) := by
  induction l with
  | nil => exact List.chain'_nil
  | cons c r ih =>
    rw [List.chain'_cons']
    refine ⟨?_, ih (fun x hx => h x (List.mem_cons_of_mem _ hx))⟩
    intro y _ hcy
    exact h c (List.mem_cons_self _ _) hcy.1

theorem cleanName_append_suffix (s : String) (k : Nat) (h : CleanName s) :
    CleanName (s ++ "_" ++ natRepr k) := by
  obtain ⟨hne, hchars, hchain, hhead, hlast⟩ := h
  have hdig : ∀ c ∈ (natRepr k).toList,
      isWordChar c = true ∧ Char.toLower c = c ∧ ¬ c = '_' :=
    fun c hc => natReprAux_props (k + 1) k c hc
  have hdne : (natRepr k).toList ≠ [] := natReprAux_ne_nil k k
  have htl : (s ++ "_" ++ natRepr k).toList = s.toList ++ ('_' :: (natRepr k).toList) := by
    show (s ++ "_" ++ natRepr k).data = s.data ++ ('_' :: (natRepr k).data)
    rw [String.data_append, String.data_append, List.append_assoc]
    rfl
  unfold CleanName
  rw [htl]
  refine ⟨by simp, ?_, ?_, ?_, ?_⟩
  · intro c hc
    rw [List.mem_append] at hc
    rcases hc with hc | hc
    · exact ⟨(hchars c hc).1, (hchars c hc).2⟩
    · rw [List.mem_cons] at hc
      rcases hc with rfl | hc
      · exact ⟨by decide, by decide⟩
      · exact ⟨(hdig c hc).1, (hdig c hc).2.1⟩
  · rw [List.chain'_append]
    refine ⟨hchain, ?_, ?_⟩
    · rw [List.chain'_cons']
      refine ⟨?_, chain'_of_all_ne _ (fun c hc => (hdig c hc).2.2)⟩
      intro y hy hcy
      exact (hdig y (List.mem_of_mem_head? hy)).2.2 hcy.2
    · intro x hx y hy hxy
      apply hlast
      rw [Option.mem_def] at hx
      rw [hx, hxy.1]
  · cases hh : s.toList.head? with
    | none => exact absurd (List.head?_eq_none_iff.mp hh) hne
    | some a =>
      rw [List.head?_append, hh]
      intro hcon
      apply hhead
      rw [hh]
      have : a = '_' := by
        have h2 : (some a).or ((('_' :: (natRepr k).toList)).head?) = some a := rfl
        rw [h2] at hcon
        exact Option.some.inj hcon
      rw [this]
  · rw [List.getLast?_append]
    cases hd : (natRepr k).toList.getLast? with
    | none => exact absurd (List.getLast?_eq_none_iff.mp hd) hdne
    | some y =>
      have hy : y ∈ (natRepr k).toList := by
        obtain ⟨hlne, heq⟩ := List.mem_getLast?_eq_getLast (by rw [hd]; rfl)
        rw [heq]
        exact List.getLast_mem hlne
      have hlcons : ('_' :: (natRepr k).toList).getLast? = some y := by
        show (['_'] ++ (natRepr k).toList).getLast? = some y
        rw [List.getLast?_append, hd]
        rfl
      rw [hlcons]
      intro hcon
      exact (hdig y hy).2.2 (Option.some.inj hcon)

end Formata

namespace Formata

theorem assignNames_length : ∀ (cols : List String) (seen : List (String × Nat)),
    (assignNames cols seen).length = cols.length := by
  intro cols
  induction cols with
  | nil => intro seen; rfl
  | cons col rest ih =>
    intro seen
    unfold assignNames
    dsimp only
    split
    · simp [ih]
    · simp [ih]

theorem assignNames_clean : ∀ (cols : List String) (seen : List (String × Nat)),
    ∀ n ∈ assignNames cols seen, CleanName n := by
  intro cols
  induction cols with
  | nil => intro seen n hn; cases hn
  | cons col rest ih =>
    intro seen n hn
    have hcl : CleanName (if clean_name col == "" then "column" else clean_name col) := by
      by_cases h : (clean_name col == "") = true
      · rw [if_pos h]
        exact ⟨by decide, by decide, chain'_of_all_ne _ (by decide), by decide, by decide⟩
      · rw [if_neg h]
        refine cleanName_clean col ?_
        intro h0
        exact absurd (by rw [h0] : (clean_name col == "") = ("" == "")) (by simp [h])
    unfold assignNames at hn
    dsimp only at hn
    split at hn
    · rcases List.mem_cons.mp hn with rfl | hn2
      · exact cleanName_append_suffix _ _ hcl
      · exact ih _ n hn2
    · rcases List.mem_cons.mp hn with rfl | hn2
      · exact hcl
      · exact ih _ n hn2

theorem assignNames_fixed : ∀ (cols : List String) (seen : List (String × Nat)),
    (∀ n ∈ cols, CleanName n) → cols.Nodup →
    (∀ n ∈ cols, seen.find? (fun p => p.1 == n) = none) →
    assignNames cols seen = cols := by
  intro cols
  induction cols with
  | nil => intro seen _ _ _; rfl
  | cons col rest ih =>
    intro seen hcn hnd hseen
    have hc := hcn col (List.mem_cons_self _ _)
    have heq : clean_name col = col := clean_name_eq_self col hc
    have hcne : (col == "") = false := by
      refine beq_eq_false_iff_ne.mpr ?_
      intro h0
      apply hc.1
      rw [h0]
      rfl
    unfold assignNames
    dsimp only
    rw [heq, hcne]
    simp only [Bool.false_eq_true, if_false]
    rw [hseen col (List.mem_cons_self _ _)]
    show col :: assignNames rest ((col, 0) :: seen) = col :: rest
    congr 1
    apply ih
    · exact fun n hn => hcn n (List.mem_cons_of_mem _ hn)
    · exact (List.nodup_cons.mp hnd).2
    · intro n hn
      have hne2 : (col == n) = false :=
        beq_eq_false_iff_ne.mpr (fun h => (List.nodup_cons.mp hnd).1 (h ▸ hn))
      rw [List.find?_cons_of_neg _ (by simp [hne2])]
      exact hseen n (List.mem_cons_of_mem _ hn)

/-- C5 counterexample: on columns a, a, a_1 the first pass emits
a, a_1, a_1 (the collision suffix collides with the literal third
name), and re-applying renames the third column to a_1_1 — so
standardize_columns is not idempotent. -/
theorem c5_counterexample :
    (standardize_columns nameCollisionTable).cols = ["a", "a_1", "a_1"] ∧
    (standardize_columns (standardize_columns nameCollisionTable)).cols =
      ["a", "a_1", "a_1_1"] ∧
    standardize_columns (standardize_columns nameCollisionTable) ≠
      standardize_columns nameCollisionTable := by
  decide

/-- C5 (amended): standardize_columns is idempotent on every table
whose first application yields pairwise distinct column names; when
the collision suffixing itself collides with a later name the output
has duplicate names and a second application renames them again. -/
theorem c5_standardize_idempotent :
    ∀ t : Table, (standardize_columns t).cols.Nodup →
      standardize_columns (standardize_columns t) = standardize_columns t := by
  intro t hnd
  by_cases he : t.isEmptyDf
  · have e : standardize_columns t = t := by
      unfold standardize_columns
      rw [if_pos he]
    rw [e]
    exact e
  · have e1 : standardize_columns t = ⟨assignNames t.cols [], t.rows⟩ := by
      unfold standardize_columns
      rw [if_neg he]
    rw [e1] at hnd ⊢
    have he3 : (t.rows.isEmpty || t.cols.isEmpty) = false := by
      rwa [Bool.not_eq_true] at he
    rw [Bool.or_eq_false_iff] at he3
    have he2 : (Table.mk (assignNames t.cols []) t.rows).isEmptyDf = false := by
      unfold Table.isEmptyDf
      rw [Bool.or_eq_false_iff]
      refine ⟨he3.1, ?_⟩
      have hlen : (assignNames t.cols []).length = t.cols.length := assignNames_length _ _
      by_contra h0
      rw [Bool.not_eq_false] at h0
      have h0b : assignNames t.cols [] = [] := List.isEmpty_iff.mp h0
      have hlz : t.cols.length = 0 := by rw [← hlen, h0b]; rfl
      rw [List.length_eq_zero] at hlz
      rw [hlz] at he3
      simp at he3
    unfold standardize_columns
    rw [if_neg (by rw [he2]; simp)]
    rw [Table.mk.injEq]
    refine ⟨?_, rfl⟩
    apply assignNames_fixed
    · exact fun n hn => assignNames_clean t.cols [] n hn
    · simpa using hnd
    · intro n _
      rfl

/-- C5 witness: on ordinary headers the normalized names are
distinct and the second application is a no-op. -/
theorem c5_witness :
    standardize_columns (standardize_columns
        ⟨["First Name", "Age!"], [[Cell.null, Cell.null]]⟩) =
      standardize_columns ⟨["First Name", "Age!"], [[Cell.null, Cell.null]]⟩ :=
  c5_standardize_idempotent ⟨["First Name", "Age!"], [[Cell.null, Cell.null]]⟩ (by decide)

end Formata
